import Mathlib

/-!
SVG2SvgIcon: the parser, the viewBox resolver and the code generator of
`src/App.jsx`.

A shallow embedding of the parse → transform → generate pipeline of the
application component `App`.  JavaScript strings are lists of characters,
plain objects are association lists kept in own-property order, and the
component state is an explicit record threaded through the handlers.
-/

namespace SVG2SvgIcon

/-- A JavaScript string, as the list of its characters. -/
abbrev Str := List Char

/-! ## String primitives used by the source -/

/-- The characters removed by `String.prototype.trim`: ECMAScript `WhiteSpace`
and `LineTerminator`. -/
def isJsWhiteSpace (c : Char) : Bool :=
  let n := c.toNat
  n == 0x09 || n == 0x0A || n == 0x0B || n == 0x0C || n == 0x0D || n == 0x20 ||
  n == 0xA0 || n == 0x1680 || (0x2000 ≤ n && n ≤ 0x200A) || n == 0x2028 ||
  n == 0x2029 || n == 0x202F || n == 0x205F || n == 0x3000 || n == 0xFEFF

/-- Drop leading white space. -/
def trimStart (s : Str) : Str := s.dropWhile isJsWhiteSpace

/-- Drop trailing white space. -/
def trimEnd (s : Str) : Str := (s.reverse.dropWhile isJsWhiteSpace).reverse

/-- `s.trim()`. -/
def trim (s : Str) : Str := trimEnd (trimStart s)

/-- `s.split(sep)` for a one-character separator: always at least one piece. -/
def split (sep : Char) : Str → List Str
  | [] => [[]]
  | c :: rest =>
    if c = sep then [] :: split sep rest
    else match split sep rest with
      | hd :: tl => (c :: hd) :: tl
      | [] => [[c]]

/-- `pieces.join(sep)`. -/
def join (sep : Str) : List Str → Str
  | [] => []
  | [s] => s
  | s :: t :: rest => s ++ sep ++ join sep (t :: rest)

/-- The character class `[a-z]`. -/
def isLowerAZ (c : Char) : Bool := 'a'.toNat ≤ c.toNat && c.toNat ≤ 'z'.toNat

/-- `c.toUpperCase()` for a character of `[a-z]`. -/
def upperAZ (c : Char) : Char := Char.ofNat (c.toNat - 32)

/-- The replacement `name.replace(re, g => g[1].toUpperCase())`, where `re` is the
global regular expression matching a hyphen followed by one captured `[a-z]`:
scanning left to right, each hyphen directly followed by a letter of `[a-z]` is replaced, together with
that letter, by the upper-cased letter; everything else is copied. -/
def camelCase : Str → Str
  | [] => []
  | [c] => [c]
  | c :: d :: rest =>
    if c = '-' ∧ isLowerAZ d = true then upperAZ d :: camelCase rest
    else c :: camelCase (d :: rest)

/-! ## Plain objects -/

/-- A plain object with string keys, as the list of its own entries in the order
`Object.entries` lists them: array-index keys in ascending numeric order first,
then the other keys in the order they were created.  The one name that never
becomes an own property by assignment is `__proto__`, the accessor every plain
object inherits. -/
abbrev JsObject (α : Type) := List (Str × α)

/-- The value of a decimal digit string. -/
def digitsValue (s : Str) : Nat := s.foldl (fun acc c => 10 * acc + (c.toNat - '0'.toNat)) 0

/-- A key that is an array index (a canonical numeric string below `2^32 - 1`),
with its numeric value. -/
def arrayIndex? (k : Str) : Option Nat :=
  match k with
  | [] => none
  | c :: rest =>
    if (c :: rest).all Char.isDigit && (c != '0' || rest.isEmpty) && (c :: rest).length ≤ 10
        && digitsValue (c :: rest) < 4294967295 then
      some (digitsValue (c :: rest))
    else none

/-- `key in obj` for own properties. -/
def hasKey {α : Type} (o : JsObject α) (k : Str) : Bool := o.any (fun e => e.1 == k)

/-- `obj[key]` for own properties (`none` is `undefined`). -/
def objGet {α : Type} (o : JsObject α) (k : Str) : Option α := (o.find? (fun e => e.1 == k)).map Prod.snd

/-- Overwrite the value of an existing key, keeping its position. -/
def objReplace {α : Type} (k : Str) (v : α) : JsObject α → JsObject α
  | [] => []
  | e :: es => if e.1 = k then (k, v) :: es else e :: objReplace k v es

/-- Create an array-index key `k` (of value `n`) at its place among the index keys. -/
def objInsertIndex {α : Type} (k : Str) (n : Nat) (v : α) : JsObject α → JsObject α
  | [] => [(k, v)]
  | e :: es =>
    match arrayIndex? e.1 with
    | some m => if m < n then e :: objInsertIndex k n v es else (k, v) :: e :: es
    | none => (k, v) :: e :: es

/-- `obj[key] = value` on an object created by a literal.  The key `__proto__`
reaches the setter inherited from `Object.prototype`, which creates no own
property (and ignores a string value altogether); any other key is overwritten
in place or created at its place in the order of own keys. -/
def objSet {α : Type} (o : JsObject α) (k : Str) (v : α) : JsObject α :=
  if k = "__proto__".toList then o
  else if hasKey o k then objReplace k v o
  else match arrayIndex? k with
    | some n => objInsertIndex k n v o
    | none => o ++ [(k, v)]

/-! ## Attribute normalizer -/

/-- One iteration of the `forEach` body of `parseStyleStringToObject`:
`const [property, value] = style.split(':')`, then the guarded assignment. -/
def styleStep (styleObject : JsObject Str) (style : Str) : JsObject Str :=
  match split ':' style with
  | property :: value :: _ =>
    if !property.isEmpty && !value.isEmpty then
      objSet styleObject (camelCase (trim property)) (trim value)
    else styleObject
  | _ => styleObject

/-- `parseStyleStringToObject(styleString)`. -/
def parseStyleStringToObject (styleString : Str) : JsObject Str :=
  if styleString.isEmpty then []
  else (split ';' styleString).foldl styleStep []

/-! ## Numbers -/

/-- A JavaScript number as far as the source observes it.  `int i` is the
integer-valued double `i` (only built for `|i| ≤ 2^53`, where every integer is
exact); `real lit` is the double denoted by the numeric literal `lit` when it is
not built as an `int` (a fraction, an exponent form, an infinity, a large
integer). -/
inductive JsNum where
  | nan
  | int (i : Int)
  | real (lit : Str)
  deriving DecidableEq, Repr

/-- Scan the longest prefix that is a `StrDecimalLiteral`; the value and the
unread rest. -/
def scanDecimalLiteral (s : Str) : Option (JsNum × Str) :=
  let signed : Bool × Str :=
    match s with
    | '+' :: r => (false, r)
    | '-' :: r => (true, r)
    | _ => (false, s)
  let neg := signed.1
  let body := signed.2
  if "Infinity".toList.isPrefixOf body then
    some (JsNum.real (s.take (s.length - (body.length - 8))), body.drop 8)
  else
    let ip := body.takeWhile Char.isDigit
    let r1 := body.dropWhile Char.isDigit
    let frac : Str × Str :=
      match r1 with
      | '.' :: r => (r.takeWhile Char.isDigit, r.dropWhile Char.isDigit)
      | _ => ([], r1)
    let fp := frac.1
    let r2 := frac.2
    if ip.isEmpty && fp.isEmpty then none
    else
      let expo : Bool × Str :=
        match r2 with
        | e :: r =>
          if e = 'e' ∨ e = 'E' then
            let r' := match r with
              | '+' :: t => t
              | '-' :: t => t
              | _ => r
            if (r'.takeWhile Char.isDigit).isEmpty then (false, r2)
            else (true, r'.dropWhile Char.isDigit)
          else (false, r2)
        | [] => (false, r2)
      let r3 := expo.2
      let v : JsNum :=
        if !expo.1 && fp.all (fun c => c == '0') && digitsValue ip ≤ 2 ^ 53 then
          JsNum.int (if neg then - (digitsValue ip : Int) else (digitsValue ip : Int))
        else JsNum.real (s.take (s.length - r3.length))
      some (v, r3)

/-- The value of a digit in a radix up to 16, if it is one. -/
def radixDigit? (radix : Nat) (c : Char) : Option Nat :=
  let n := c.toNat
  let v : Option Nat :=
    if 48 ≤ n ∧ n ≤ 57 then some (n - 48)
    else if 97 ≤ n ∧ n ≤ 102 then some (n - 87)
    else if 65 ≤ n ∧ n ≤ 70 then some (n - 55)
    else none
  v.bind (fun d => if d < radix then some d else none)

/-- A `NonDecimalIntegerLiteral` (`0x…`, `0o…`, `0b…`), read whole. -/
def scanNonDecimal (s : Str) : Option JsNum :=
  match s with
  | '0' :: x :: ds =>
    let radix : Option Nat :=
      if x = 'x' ∨ x = 'X' then some 16
      else if x = 'o' ∨ x = 'O' then some 8
      else if x = 'b' ∨ x = 'B' then some 2
      else none
    match radix with
    | some r =>
      if !ds.isEmpty && ds.all (fun c => (radixDigit? r c).isSome) then
        let v := ds.foldl (fun acc c => r * acc + (radixDigit? r c).getD 0) 0
        some (if v ≤ 2 ^ 53 then JsNum.int v else JsNum.real s)
      else none
    | none => none
  | _ => none

/-- `parseFloat(s)`. -/
def parseFloat (s : Str) : JsNum :=
  match scanDecimalLiteral (trimStart s) with
  | some (v, _) => v
  | none => JsNum.nan

/-- `Number(s)` for a string `s`. -/
def toNumber (s : Str) : JsNum :=
  let t := trim s
  if t.isEmpty then JsNum.int 0
  else match scanNonDecimal t with
    | some v => v
    | none =>
      match scanDecimalLiteral t with
      | some (v, []) => v
      | _ => JsNum.nan

/-- Decimal digits of a natural number. -/
def natToStr (n : Nat) : Str := Nat.toDigits 10 n

/-- The string conversion of a number inside a template literal. -/
def numToString (printReal : Str → Str) : JsNum → Str
  | JsNum.nan => "NaN".toList
  | JsNum.int i => if i < 0 then '-' :: natToStr i.natAbs else natToStr i.toNat
  | JsNum.real lit => printReal lit

/-- The string conversion of a possibly `undefined` number (`none`). -/
def valToString (printReal : Str → Str) : Option JsNum → Str
  | none => "undefined".toList
  | some n => numToString printReal n

/-! ## Markup elements and element nodes -/

/-- A markup element as the DOM presents it: `tagName`, `attributes` (name and
value, in document order) and `children` (child elements only). -/
inductive Element where
  | mk (tagName : Str) (attributes : List (Str × Str)) (children : List Element)

/-- `element.tagName`. -/
def Element.tagName : Element → Str
  | .mk t _ _ => t

/-- `element.attributes`. -/
def Element.attributes : Element → List (Str × Str)
  | .mk _ a _ => a

/-- `element.children`. -/
def Element.children : Element → List Element
  | .mk _ _ c => c

/-- `element.getAttribute(name)`; `none` is `null`. -/
def Element.getAttribute (e : Element) (name : Str) : Option Str :=
  (e.attributes.find? (fun a => a.1 == name)).map Prod.snd

/-- The parsed document as `parseSvg` queries it: `doc.querySelector('svg')` and
the `innerText` of `doc.querySelector('parsererror')`. -/
structure Document where
  svgElement : Option Element
  parseError : Option Str

/-- What the host supplies and the source only calls: the XML parser behind
`DOMParser`, Unicode lower-casing, and the printing of doubles that are not
small integers. -/
structure Host where
  /-- `new DOMParser().parseFromString(text, 'image/svg+xml')`. -/
  parseFromString : Str → Document
  /-- `s.toLowerCase()` for a string with a character outside ASCII. -/
  lowerUnicode : Str → Str
  /-- The string form of the double denoted by a numeric literal. -/
  printReal : Str → Str

/-- A property value: a string, or the style object built from a `style`
attribute. -/
inductive PropValue where
  | str (s : Str)
  | style (m : JsObject Str)
  deriving DecidableEq

/-- The object `{ type, props, children }` built for one element. -/
inductive ElementNode where
  | mk (type : Str) (props : JsObject PropValue) (children : List ElementNode)

/-- `node.type`. -/
def ElementNode.type : ElementNode → Str
  | .mk t _ _ => t

/-- `node.props`. -/
def ElementNode.props : ElementNode → JsObject PropValue
  | .mk _ p _ => p

/-- `node.children`. -/
def ElementNode.children : ElementNode → List ElementNode
  | .mk _ _ c => c

/-- `c.toLowerCase()` for an ASCII character. -/
def lowerAscii (c : Char) : Char :=
  if 65 ≤ c.toNat ∧ c.toNat ≤ 90 then Char.ofNat (c.toNat + 32) else c

/-- `s.toLowerCase()`: computed for ASCII strings, the host's otherwise. -/
def toLowerCase (lowerUnicode : Str → Str) (s : Str) : Str :=
  if s.all (fun c => c.toNat < 128) then s.map lowerAscii else lowerUnicode s

/-! ## Tree parser -/

/-- The body of the loop `for (const attr of child.attributes)`. -/
def attrStep (attrs : JsObject PropValue) (attr : Str × Str) : JsObject PropValue :=
  if attr.1 = "style".toList then
    objSet attrs "style".toList (PropValue.style (parseStyleStringToObject attr.2))
  else
    objSet attrs (camelCase attr.1) (PropValue.str attr.2)

mutual
/-- The callback of `Array.from(element.children).map(child => …)`. -/
def parseChild (lowerUnicode : Str → Str) : Element → ElementNode
  | .mk tagName attributes children =>
    ElementNode.mk (toLowerCase lowerUnicode tagName) (attributes.foldl attrStep [])
      (if children.length > 0 then parseChildren lowerUnicode children else [])
/-- The `map` over the child elements, in order. -/
def parseChildren (lowerUnicode : Str → Str) : List Element → List ElementNode
  | [] => []
  | child :: rest => parseChild lowerUnicode child :: parseChildren lowerUnicode rest
end

/-- `parseElementsRecursive(element)`. -/
def parseElementsRecursive (lowerUnicode : Str → Str) (element : Element) : List ElementNode :=
  parseChildren lowerUnicode element.children

/-! ## Code generator -/

/-- `'  '.repeat(depth)`. -/
def indentOf (depth : Nat) : Str := List.replicate (2 * depth) ' '

/-- The callback over `Object.entries(value)` of a style object. -/
def styleEntryString (e : Str × Str) : Str := e.1 ++ ": \x27".toList ++ e.2 ++ "\x27".toList

/-- The string conversion of a property value inside a template literal. -/
def propValueString : PropValue → Str
  | PropValue.str s => s
  | PropValue.style _ => "[object Object]".toList

/-- The callback over `Object.entries(props)`. -/
def propEntryString (e : Str × PropValue) : Str :=
  match e.2 with
  | PropValue.style m =>
    if e.1 = "style".toList then
      "style=\x7b\x7b ".toList ++ join ", ".toList (m.map styleEntryString) ++ " \x7d\x7d".toList
    else e.1 ++ "=\"".toList ++ propValueString e.2 ++ "\"".toList
  | PropValue.str v => e.1 ++ "=\"".toList ++ v ++ "\"".toList

/-- The constant `propsString` of one element. -/
def propsString (props : JsObject PropValue) : Str := join " ".toList (props.map propEntryString)

mutual
/-- The callback of `elements.map((element, index) => …)` at a given `depth`. -/
def renderElement (depth index : Nat) : ElementNode → Str
  | .mk type props children =>
    if children.length > 0 then
      indentOf depth ++ "<".toList ++ type ++ " key=\x7b".toList ++ natToStr index ++ "\x7d ".toList
        ++ propsString props ++ ">\n".toList
        ++ join "\n".toList (renderElements (depth + 1) 0 children)
        ++ "\n".toList ++ indentOf depth ++ "</".toList ++ type ++ ">".toList
    else
      indentOf depth ++ "<".toList ++ type ++ " key=\x7b".toList ++ natToStr index ++ "\x7d ".toList
        ++ propsString props ++ " />".toList
/-- The `map` over the elements, the first of which has index `index`. -/
def renderElements (depth index : Nat) : List ElementNode → List Str
  | [] => []
  | element :: rest => renderElement depth index element :: renderElements depth (index + 1) rest
end

/-- `generateJsxRecursive(elements, depth)`; the source's default depth is 3. -/
def generateJsxRecursive (elements : List ElementNode) (depth : Nat := 3) : Str :=
  join "\n".toList (renderElements depth 0 elements)

/-! ## Session state -/

/-- The object `{ minX, minY, width, height }`; a field is `none` when it holds
`undefined`. -/
structure ViewBoxValues where
  minX : Option JsNum
  minY : Option JsNum
  width : Option JsNum
  height : Option JsNum
  deriving DecidableEq

/-- The object `{ elements, originalViewBox }` stored by a successful parse. -/
structure ParsedData where
  elements : List ElementNode
  originalViewBox : Str

/-- The state cells of `App` that the parse, edit and generate handlers read or
write; `none` is `null`. -/
structure Session where
  svgInput : Str
  parsedData : Option ParsedData
  error : Str
  componentName : Str
  isConsoleOpen : Bool
  viewBoxValues : Option ViewBoxValues

/-- The initial state of the component. -/
def Session.initial : Session :=
  { svgInput := [], parsedData := none, error := [], componentName := "CustomIcon".toList,
    isConsoleOpen := false, viewBoxValues := none }

/-- `handleError(errorMessage)`. -/
def handleError (s : Session) (errorMessage : Str) : Session :=
  if errorMessage.isEmpty then { s with error := errorMessage }
  else { s with error := errorMessage, isConsoleOpen := true }

/-- `const [minX, minY, width, height] = viewBoxString.split(' ').map(Number)`,
packed as `{ minX, minY, width, height }`. -/
def viewBoxOfString (viewBoxString : Str) : ViewBoxValues :=
  let nums := (split ' ' viewBoxString).map toNumber
  { minX := nums[0]?, minY := nums[1]?, width := nums[2]?, height := nums[3]? }

/-- The resolution of `viewBoxString` in `parseSvg` (an empty attribute value is
falsy, like `null`). -/
def resolveViewBox (printReal : Str → Str) (svgElement : Element) : Str :=
  match svgElement.getAttribute "viewBox".toList with
  | some (c :: cs) => c :: cs
  | _ =>
    match svgElement.getAttribute "width".toList, svgElement.getAttribute "height".toList with
    | some (w :: ws), some (h :: hs) =>
      "0 0 ".toList ++ numToString printReal (parseFloat (w :: ws)) ++ " ".toList
        ++ numToString printReal (parseFloat (h :: hs))
    | _, _ => "0 0 24 24".toList

/-- `parseSvg()`, run on the state `s`; the state updates of one run are applied
together.  The `catch` branch is left out: none of the operations in the `try`
block throws on the values modelled here. -/
def parseSvg (host : Host) (s : Session) : Session :=
  let s0 : Session := { handleError s [] with parsedData := none, viewBoxValues := none }
  if (trim s.svgInput).isEmpty then
    handleError s0 "请输入SVG内容。".toList
  else
    let doc := host.parseFromString s.svgInput
    match doc.parseError, doc.svgElement with
    | some text, _ => handleError s0 ("无效的SVG格式。 ".toList ++ text)
    | none, none => handleError s0 ("无效的SVG格式。 ".toList ++ "找不到 <svg> 元素。".toList)
    | none, some svgElement =>
      let viewBoxString := resolveViewBox host.printReal svgElement
      let elements := parseElementsRecursive host.lowerUnicode svgElement
      if elements.length = 0 then
        handleError s0 "在SVG中没有找到有效的图形元素。".toList
      else
        { s0 with
          viewBoxValues := some (viewBoxOfString viewBoxString)
          parsedData := some { elements := elements, originalViewBox := viewBoxString } }

/-- `handleViewBoxChange(e)` with `e.target.name = name`, `e.target.value = value`:
the functional update `prev => ({ ...prev, [name]: … })`.  A name other than the
four fields would add a property that no code reads. -/
def handleViewBoxChange (s : Session) (name value : Str) : Session :=
  let prev : ViewBoxValues :=
    s.viewBoxValues.getD { minX := none, minY := none, width := none, height := none }
  let v : Option JsNum := some (if value.isEmpty then JsNum.int 0 else parseFloat value)
  let next : ViewBoxValues :=
    if name = "minX".toList then { prev with minX := v }
    else if name = "minY".toList then { prev with minY := v }
    else if name = "width".toList then { prev with width := v }
    else if name = "height".toList then { prev with height := v }
    else prev
  { s with viewBoxValues := some next }

/-- `resetViewBox()`. -/
def resetViewBox (s : Session) : Session :=
  match s.parsedData with
  | some parsedData =>
    if parsedData.originalViewBox.isEmpty then s
    else { s with viewBoxValues := some (viewBoxOfString parsedData.originalViewBox) }
  | none => s

/-- `generateComponentCode()`. -/
def generateComponentCode (host : Host) (s : Session) : Str :=
  match s.parsedData, s.viewBoxValues with
  | some parsedData, some viewBoxValues =>
    let elementsJsx := generateJsxRecursive parsedData.elements
    let currentViewBox :=
      valToString host.printReal viewBoxValues.minX ++ " ".toList
        ++ valToString host.printReal viewBoxValues.minY ++ " ".toList
        ++ valToString host.printReal viewBoxValues.width ++ " ".toList
        ++ valToString host.printReal viewBoxValues.height
    "import React from \x27react\x27;\nimport \x7b SvgIcon \x7d from \x27@mui/material\x27;\n\nconst ".toList
      ++ s.componentName
      ++ " = (props) => \x7b\n  return (\n    <SvgIcon \x7b...props\x7d viewBox=\"".toList
      ++ currentViewBox ++ "\">\n".toList
      ++ elementsJsx
      ++ "\n    </SvgIcon>\n  );\n\x7d;\n\nexport default ".toList
      ++ s.componentName ++ ";".toList
  | _, _ => []

/-! ## Tag skeletons, used to compare tree shapes -/

/-- A tree of tag names. -/
inductive TagTree where
  | node (tag : Str) (kids : List TagTree)

mutual
/-- The tags of an element subtree, lower-cased. -/
def elementTagTree (lowerUnicode : Str → Str) : Element → TagTree
  | .mk tagName _ children =>
    TagTree.node (toLowerCase lowerUnicode tagName) (elementTagTrees lowerUnicode children)
/-- The tag trees of a list of elements. -/
def elementTagTrees (lowerUnicode : Str → Str) : List Element → List TagTree
  | [] => []
  | e :: es => elementTagTree lowerUnicode e :: elementTagTrees lowerUnicode es
end

mutual
/-- The tags of an element-node subtree. -/
def nodeTagTree : ElementNode → TagTree
  | .mk type _ children => TagTree.node type (nodeTagTrees children)
/-- The tag trees of a list of element nodes. -/
def nodeTagTrees : List ElementNode → List TagTree
  | [] => []
  | n :: ns => nodeTagTree n :: nodeTagTrees ns
end

/-! ## The frame as the specification words it -/

/-- The resolved frame in the specification's words: the `viewBox` attribute when
it exists and is non-empty; otherwise `0 0 <w> <h>` when a `width` and a `height`
attribute both exist; otherwise `0 0 24 24`. -/
def claimedViewBox (printReal : Str → Str) (svgElement : Element) : Str :=
  match svgElement.getAttribute "viewBox".toList with
  | some (c :: cs) => c :: cs
  | _ =>
    match svgElement.getAttribute "width".toList, svgElement.getAttribute "height".toList with
    | some w, some h =>
      "0 0 ".toList ++ numToString printReal (parseFloat w) ++ " ".toList
        ++ numToString printReal (parseFloat h)
    | _, _ => "0 0 24 24".toList

/-! ## Style strings as the specification words them -/

/-- One `;`-separated segment of a style string: a declaration `p:v`, or any
other text. -/
inductive StyleSegment where
  | decl (p v : Str)
  | other (text : Str)

/-- The text of a segment. -/
def StyleSegment.text : StyleSegment → Str
  | .decl p v => p ++ ':' :: v
  | .other t => t

/-- A declaration has `p` and `v` non-empty after trimming and free of `:` and
`;`; another segment has no colon (and no `;`), and may be empty. -/
def StyleSegment.WellFormed : StyleSegment → Prop
  | .decl p v => trim p ≠ [] ∧ trim v ≠ [] ∧ ':' ∉ p ∧ ';' ∉ p ∧ ':' ∉ v ∧ ';' ∉ v
  | .other t => ':' ∉ t ∧ ';' ∉ t

instance : DecidablePred StyleSegment.WellFormed
  | .decl p v =>
    inferInstanceAs (Decidable (trim p ≠ [] ∧ trim v ≠ [] ∧ ':' ∉ p ∧ ';' ∉ p ∧ ':' ∉ v ∧ ';' ∉ v))
  | .other t => inferInstanceAs (Decidable (':' ∉ t ∧ ';' ∉ t))

/-- The declarations among the segments, in order. -/
def declsOf : List StyleSegment → List (Str × Str)
  | [] => []
  | .decl p v :: rest => (p, v) :: declsOf rest
  | .other _ :: rest => declsOf rest

/-- The map that sends each trimmed, camelCased `p` to its trimmed `v`; where
two declarations name the same property the later one counts. -/
def styleMapOf (decls : List (Str × Str)) (k : Str) : Option Str :=
  (decls.reverse.find? (fun d => camelCase (trim d.1) == k)).map (fun d => trim d.2)

/-- The declarations whose trimmed, camelCased name is not `__proto__`. -/
def ownDecls (decls : List (Str × Str)) : List (Str × Str) :=
  decls.filter (fun d => camelCase (trim d.1) != "__proto__".toList)

/-! ## Attribute names as the specification words them -/

/-- A kebab-case name: non-empty runs of lower-case letters or digits, joined by
single hyphens. -/
def isKebab (name : Str) : Bool :=
  (split '-' name).all (fun run => !run.isEmpty && run.all (fun c => isLowerAZ c || c.isDigit))

/-- A run that starts with a lower-case letter. -/
def startsLower : Str → Bool
  | [] => false
  | c :: _ => isLowerAZ c

/-- A kebab-case name in which every run after a hyphen starts with a letter. -/
def isKebabLetters (name : Str) : Bool :=
  isKebab name && (split '-' name).tail.all startsLower

/-- The name with every hyphen removed and each letter that followed a hyphen
upper-cased; `afterHyphen` tells whether the previous character was a hyphen. -/
def hyphensToCamel (afterHyphen : Bool) : Str → Str
  | [] => []
  | c :: rest =>
    if c = '-' then hyphensToCamel true rest
    else (if afterHyphen && isLowerAZ c then upperAZ c else c) :: hyphensToCamel false rest

/-- Every hyphen is directly followed by a letter of `[a-z]`. -/
def hyphensLed : Str → Bool
  | [] => true
  | [c] => c != '-'
  | c :: d :: rest => (c != '-' || isLowerAZ d) && hyphensLed (d :: rest)

/-! ## Trees whose generated text can be read back -/

/-- A property name that cannot be mistaken for the end of a tag: non-empty and
without space, `=`, `>` or `/` (every XML name is one). -/
def CleanName (name : Str) : Prop :=
  name ≠ [] ∧ ' ' ∉ name ∧ '=' ∉ name ∧ '>' ∉ name ∧ '/' ∉ name

/-- A style entry whose name has no colon and no leading space (as after
`split(':')` and `trim()`), and whose value has no single quote. -/
def CleanStyleEntry (e : Str × Str) : Prop :=
  ':' ∉ e.1 ∧ e.1.head? ≠ some ' ' ∧ '\'' ∉ e.2

/-- A property with a clean name whose value is a string without a double
quote, or, under the name `style`, a style object with clean entries. -/
def CleanProp (e : Str × PropValue) : Prop :=
  CleanName e.1 ∧
    match e.2 with
    | PropValue.str v => '\"' ∉ v
    | PropValue.style m => e.1 = "style".toList ∧ ∀ x ∈ m, CleanStyleEntry x

mutual
/-- A node whose tag has no space and whose properties are clean, with clean
children. -/
def CleanNode : ElementNode → Prop
  | .mk type props children => ' ' ∉ type ∧ (∀ e ∈ props, CleanProp e) ∧ CleanNodes children
/-- Every node of the list is clean. -/
def CleanNodes : List ElementNode → Prop
  | [] => True
  | n :: ns => CleanNode n ∧ CleanNodes ns
end

/-- What follows the properties of a tag: ` />…` or `>…`. -/
def IsTagEnd (E : Str) : Prop := (∃ X, E = ' ' :: '/' :: '>' :: X) ∨ (∃ Y, E = '>' :: Y)

/-- The `map` with index of the source, started at index `k`. -/
def mapFrom {α : Type} (f : Nat → α → Str) : Nat → List α → List Str
  | _, [] => []
  | k, a :: as => f k a :: mapFrom f (k + 1) as

/-- What `renderElement` prints after the properties of an element at depth `d`,
followed by `X`: the end of a self-closed tag, or the end of the opening tag, the
children one level deeper and the closing tag. -/
def tagEndText (d : Nat) (tag : Str) (children : List ElementNode) (X : Str) : Str :=
  match children with
  | [] => ' ' :: '/' :: '>' :: X
  | c :: cs =>
    '>' :: '\n' ::
      (join "\n".toList (mapFrom (renderElement (d + 1)) 0 (c :: cs))
        ++ '\n' :: (indentOf d ++ '<' :: '/' :: (tag ++ '>' :: X)))

/-! ## Documents as element trees -/

/-- The local name of a qualified name: the part after the prefix and its colon,
or the whole name when there is no prefix. -/
def localName (qualified : Str) : Str :=
  match split ':' qualified with
  | [_, l] => l
  | _ => qualified

mutual
/-- The elements of a subtree in document order, the root first. -/
def elementsOf : Element → List Element
  | .mk tagName attributes children =>
    Element.mk tagName attributes children :: elementsOfList children
/-- The elements of a list of subtrees in document order. -/
def elementsOfList : List Element → List Element
  | [] => []
  | e :: es => elementsOf e ++ elementsOfList es
end

/-- `doc.querySelector(name)` for a type selector, in the document whose
document element is `root`: the first element in document order with that
local name; `none` is `null`. -/
def querySelector (name : Str) (root : Element) : Option Element :=
  (elementsOf root).find? (fun e => localName e.tagName == name)

/-- What `parseSvg` reads from the document whose document element is `root`:
`doc.querySelector('svg')` and the `innerText` of
`doc.querySelector('parsererror')`; `innerText` is the host's. -/
def documentOfRoot (innerText : Element → Str) (root : Element) : Document :=
  { svgElement := querySelector "svg".toList root
    parseError := (querySelector "parsererror".toList root).map innerText }

/-- A finite sequence of viewBox field edits, each a field name and the new text
of the field, applied in order with `handleViewBoxChange`. -/
def applyEdits (s : Session) (edits : List (Str × Str)) : Session :=
  edits.foldl (fun st e => handleViewBoxChange st e.1 e.2) s

/-! ## Lower-casing as the specification words it -/

/-- The lower-case form of a character of a tag name written in ASCII: each of
the letters `A` to `Z` becomes the letter at the same place in `a` to `z`, any
other character stays. -/
def lowerLetter (c : Char) : Char :=
  match ("ABCDEFGHIJKLMNOPQRSTUVWXYZ".toList.zip "abcdefghijklmnopqrstuvwxyz".toList).find?
      (fun p => p.1 == c) with
  | some p => p.2
  | none => c

/-! ## Sample inputs -/

/-- The element `<path d="M1 1h2v2"/>`. -/
def samplePath : Element := Element.mk "path".toList [("d".toList, "M1 1h2v2".toList)] []

/-- A host whose XML parser yields the given root for every text, with identity
stand-ins for the two string services. -/
def hostOf (svgElement : Element) : Host :=
  { parseFromString := fun _ => { svgElement := some svgElement, parseError := none }
    lowerUnicode := id
    printReal := id }

/-- A fresh session whose input field holds `text`. -/
def sessionOf (text : Str) : Session := { Session.initial with svgInput := text }

/-- The document `<svg width="" height="32"><path d="M1 1h2v2"/></svg>`. -/
def svgEmptyWidth : Element :=
  Element.mk "svg".toList [("width".toList, []), ("height".toList, "32".toList)] [samplePath]

/-- The document `<svg width="32" height="32"><path d="M1 1h2v2"/></svg>`. -/
def svgSized : Element :=
  Element.mk "svg".toList [("width".toList, "32".toList), ("height".toList, "32".toList)]
    [samplePath]

/-- The document `<svg viewBox="0 0 24 24"><path d="M1 1h2v2"/></svg>`. -/
def svgSample : Element :=
  Element.mk "svg".toList [("viewBox".toList, "0 0 24 24".toList)] [samplePath]

/-- A session that holds a successful parse of `svgSample` and whose input field
has since been overwritten with blanks. -/
def parsedThenBlank : Session :=
  { parseSvg (hostOf svgSample) (sessionOf "<svg/>".toList) with svgInput := " \n\t".toList }

/-- The document `<svg viewBox="0  0 24 24"><path d="M1 1h2v2"/></svg>`, whose
first two numbers are separated by two spaces. -/
def svgDoubleSpace : Element :=
  Element.mk "svg".toList [("viewBox".toList, "0  0 24 24".toList)] [samplePath]

/-- The fields of a string separated by non-empty runs of spaces, tabs or
newlines; `cur` is the field being read, reversed. -/
def whitespaceFields (cur : Str) : Str → List Str
  | [] => if cur.isEmpty then [] else [cur.reverse]
  | c :: rest =>
    if c = ' ' ∨ c = '\t' ∨ c = '\n' then
      (if cur.isEmpty then whitespaceFields [] rest else cur.reverse :: whitespaceFields [] rest)
    else whitespaceFields (c :: cur) rest

/-- A host whose XML parser knows the listed texts and yields the listed root for
each; any other text is reported as a parser error. -/
def hostOfTexts (table : List (Str × Element)) : Host :=
  { parseFromString := fun text =>
      match table.find? (fun row => row.1 == text) with
      | some row => { svgElement := some row.2, parseError := none }
      | none => { svgElement := none, parseError := some "parsererror".toList }
    lowerUnicode := id
    printReal := id }

/-- A document whose single `path` has a `d` value holding a double quote, a
line break (written `&#10;`) and the text of a second tag (its `<` written
`&lt;`). -/
def textQuoted : Str :=
  ("<svg viewBox=\"0 0 48 48\"><path d=\x27x\" />&#10;      &lt;circle key=\x7b1\x7d r=\"1\x27/>"
    ++ "</svg>").toList

/-- The element tree of `textQuoted`. -/
def svgQuoted : Element :=
  Element.mk "svg".toList [("viewBox".toList, "0 0 48 48".toList)]
    [Element.mk "path".toList
      [("d".toList, "x\" />\n      <circle key=\x7b1\x7d r=\"1".toList)] []]

/-- A document with a `path` and a `circle`. -/
def textTwo : Str :=
  "<svg viewBox=\"0 0 48 48\"><path d=\"x\"/><circle r=\"1\"/></svg>".toList

/-- The element tree of `textTwo`. -/
def svgTwo : Element :=
  Element.mk "svg".toList [("viewBox".toList, "0 0 48 48".toList)]
    [Element.mk "path".toList [("d".toList, "x".toList)] [],
     Element.mk "circle".toList [("r".toList, "1".toList)] []]

/-- The document `textTwo` with a namespace declaration on its root. -/
def textTwoNs : Str :=
  ("<svg xmlns=\"http://www.w3.org/2000/svg\" viewBox=\"0 0 48 48\"><path d=\"x\"/>"
    ++ "<circle r=\"1\"/></svg>").toList

/-- The element tree of `textTwoNs`. -/
def svgTwoNs : Element :=
  Element.mk "svg".toList
    [("xmlns".toList, "http://www.w3.org/2000/svg".toList),
     ("viewBox".toList, "0 0 48 48".toList)]
    [Element.mk "path".toList [("d".toList, "x".toList)] [],
     Element.mk "circle".toList [("r".toList, "1".toList)] []]

/-- The host that parses the three sample documents. -/
def hostSamples : Host :=
  hostOfTexts [(textQuoted, svgQuoted), (textTwo, svgTwo), (textTwoNs, svgTwoNs)]

/-- The nodes parsed from `textQuoted`. -/
def nodesQuoted : List ElementNode :=
  [ElementNode.mk "path".toList
    [("d".toList, PropValue.str "x\" />\n      <circle key=\x7b1\x7d r=\"1".toList)] []]

/-- The nodes parsed from `textTwo` and from `textTwoNs`. -/
def nodesTwo : List ElementNode :=
  [ElementNode.mk "path".toList [("d".toList, PropValue.str "x".toList)] [],
   ElementNode.mk "circle".toList [("r".toList, PropValue.str "1".toList)] []]

/-- A host whose XML parser yields, for every text, the document with the given
document element; an element that is not an HTML element has no `innerText`, so
its text prints as `undefined`. -/
def hostOfRoot (root : Element) : Host :=
  { parseFromString := fun _ => documentOfRoot (fun _ => "undefined".toList) root
    lowerUnicode := id
    printReal := id }

/-- The document `<svg viewBox="0 0 24 24"><parsererror/></svg>`: well formed,
with one child element, which is named `parsererror`. -/
def svgNamedParsererror : Element :=
  Element.mk "svg".toList [("viewBox".toList, "0 0 24 24".toList)]
    [Element.mk "parsererror".toList [] []]

/-- The document `<svg viewBox="0 0 24 24" width="24">no shapes</svg>`: a root
with attributes and text, and no child element. -/
def svgNoChildren : Element :=
  Element.mk "svg".toList
    [("viewBox".toList, "0 0 24 24".toList), ("width".toList, "24".toList)] []

/-- The document `<svg width="32" height="32"><path d="M1 1h2v2"/></svg>` parsed
in a fresh session. -/
def parsedSized : Session :=
  parseSvg (hostOf svgSized)
    (sessionOf "<svg width=\"32\" height=\"32\"><path d=\"M1 1h2v2\"/></svg>".toList)

/-- Edits of all four fields, one of them to the blank text. -/
def sampleEdits : List (Str × Str) :=
  [("minX".toList, "4".toList), ("width".toList, []), ("height".toList, "12.5".toList),
   ("minY".toList, "-3".toList), ("width".toList, "abc".toList)]

/-- The segments of `" font-size : 12px ;novalue;a:1;;__proto__:x;a:2"`. -/
def sampleSegments : List StyleSegment :=
  [StyleSegment.decl " font-size ".toList " 12px ".toList,
   StyleSegment.other "novalue".toList, StyleSegment.decl "a".toList "1".toList,
   StyleSegment.other [], StyleSegment.decl "__proto__".toList "x".toList,
   StyleSegment.decl "a".toList "2".toList]

/-- The document `<svg viewBox="0 0 24 24"><linearGradient id="g"><stop
offset="0"/></linearGradient><clipPath/></svg>`, whose tag names have upper-case
letters. -/
def svgGradient : Element :=
  Element.mk "svg".toList [("viewBox".toList, "0 0 24 24".toList)]
    [Element.mk "linearGradient".toList [("id".toList, "g".toList)]
      [Element.mk "stop".toList [("offset".toList, "0".toList)] []],
     Element.mk "clipPath".toList [] []]

/-- The document `<svg viewBox="0 0 24 24"><path d="M1 1h2v2"/></svg>` parsed in
a fresh session. -/
def parsedSample : Session :=
  parseSvg (hostOf svgSample)
    (sessionOf "<svg viewBox=\"0 0 24 24\"><path d=\"M1 1h2v2\"/></svg>".toList)

/-- The document `<svg viewBox="0 -5 x"><path d="M1 1h2v2"/></svg>`, whose frame
has three fields, the last not a number. -/
def svgShortFrame : Element :=
  Element.mk "svg".toList [("viewBox".toList, "0 -5 x".toList)] [samplePath]

/-- The document `svgShortFrame` parsed in a fresh session. -/
def parsedShortFrame : Session :=
  parseSvg (hostOf svgShortFrame)
    (sessionOf "<svg viewBox=\"0 -5 x\"><path d=\"M1 1h2v2\"/></svg>".toList)

/-- The artifact for the component `CustomIcon` with the single element
`<path d="M1 1h2v2"/>` and the given text between the quotes of `viewBox`. -/
def sampleArtifact (frame : Str) : Str :=
  ("import React from \x27react\x27;\nimport \x7b SvgIcon \x7d from \x27@mui/material\x27;\n\n"
    ++ "const CustomIcon = (props) => \x7b\n  return (\n    <SvgIcon \x7b...props\x7d viewBox=\"").toList
    ++ frame
    ++ ("\">\n      <path key=\x7b0\x7d d=\"M1 1h2v2\" />\n    </SvgIcon>\n  );\n\x7d;\n\n"
    ++ "export default CustomIcon;").toList

/-! ## Theorems -/

theorem renderElements_eq_map (depth : Nat) (nodes : List ElementNode) (k : Nat) :
    renderElements depth k nodes
      = (nodes.enumFrom k).map (fun p => renderElement depth p.1 p.2) := by
  induction nodes generalizing k with
  | nil => simp [renderElements]
  | cons n ns ih => simp [renderElements, List.enumFrom, ih]

theorem parseChildren_eq_map (lower : Str → Str) (es : List Element) :
    parseChildren lower es = es.map (parseChild lower) := by
  induction es with
  | nil => simp [parseChildren]
  | cons e es ih => simp [parseChildren, ih]

theorem parseChild_children (lower : Str → Str) (child : Element) :
    (parseChild lower child).children = parseElementsRecursive lower child := by
  cases child with
  | mk t a c =>
    cases c with
    | nil => simp [parseChild, parseElementsRecursive, ElementNode.children, Element.children, parseChildren]
    | cons x xs => simp [parseChild, parseElementsRecursive, ElementNode.children, Element.children]

mutual
theorem tagTree_parseChild (lower : Str → Str) :
    ∀ e : Element, nodeTagTree (parseChild lower e) = elementTagTree lower e
  | .mk t a [] => by
    simp [parseChild, nodeTagTree, elementTagTree, nodeTagTrees, elementTagTrees]
  | .mk t a (x :: xs) => by
    have ih := tagTree_parseChildren lower (x :: xs)
    simp only [parseChild, nodeTagTree, elementTagTree]
    simp [ih]
theorem tagTree_parseChildren (lower : Str → Str) :
    ∀ es : List Element, nodeTagTrees (parseChildren lower es) = elementTagTrees lower es
  | [] => by simp [parseChildren, nodeTagTrees, elementTagTrees]
  | e :: es => by
    have ih1 := tagTree_parseChild lower e
    have ih2 := tagTree_parseChildren lower es
    simp [parseChildren, nodeTagTrees, elementTagTrees, ih1, ih2]
end

/-- C1: `generateJsxRecursive` emits one entry per node, in order, joined by
newlines; entry `i` is the self-closed tag `<tag key={i} props />` for a node
without children, and for a node with children the opening tag, the children
generated one level (two spaces) deeper, and the closing tag; a property other
than `style` is printed `name="value"` (an object value in its string form), a
`style` object as an inline object literal of its entries.  The node `path`
with `d="M1 1h2v2"` gives the self-closed tag `<path key={0} d="M1 1h2v2" />` at
the default indentation. -/
theorem generateJsxRecursive_entries (nodes : List ElementNode) (depth : Nat) :
    generateJsxRecursive nodes depth
        = join "\n".toList (nodes.enum.map (fun p => renderElement depth p.1 p.2))
    ∧ (nodes.enum.map (fun p => renderElement depth p.1 p.2)).length = nodes.length
    ∧ (∀ (i : Nat) (tag : Str) (props : JsObject PropValue),
        renderElement depth i (ElementNode.mk tag props [])
          = indentOf depth ++ "<".toList ++ tag ++ " key=\x7b".toList ++ natToStr i
              ++ "\x7d ".toList ++ join " ".toList (props.map propEntryString) ++ " />".toList)
    ∧ (∀ (i : Nat) (tag : Str) (props : JsObject PropValue) (c : ElementNode)
        (cs : List ElementNode),
        renderElement depth i (ElementNode.mk tag props (c :: cs))
          = indentOf depth ++ "<".toList ++ tag ++ " key=\x7b".toList ++ natToStr i
              ++ "\x7d ".toList ++ join " ".toList (props.map propEntryString) ++ ">\n".toList
              ++ generateJsxRecursive (c :: cs) (depth + 1)
              ++ "\n".toList ++ indentOf depth ++ "</".toList ++ tag ++ ">".toList)
    ∧ indentOf (depth + 1) = ' ' :: ' ' :: indentOf depth
    ∧ (∀ (name value : Str),
        propEntryString (name, PropValue.str value)
          = name ++ "=\"".toList ++ value ++ "\"".toList)
    ∧ (∀ (m : JsObject Str),
        propEntryString ("style".toList, PropValue.style m)
          = "style=\x7b\x7b ".toList
              ++ join ", ".toList (m.map (fun e => e.1 ++ ": \x27".toList ++ e.2 ++ "\x27".toList))
              ++ " \x7d\x7d".toList)
    ∧ (∀ (name : Str) (m : JsObject Str), name ≠ "style".toList →
        propEntryString (name, PropValue.style m)
          = name ++ "=\"".toList ++ "[object Object]".toList ++ "\"".toList)
    ∧ generateJsxRecursive
          [ElementNode.mk "path".toList [("d".toList, PropValue.str "M1 1h2v2".toList)] []]
        = "      <path key=\x7b0\x7d d=\"M1 1h2v2\" />".toList := by
  refine ⟨?_, ?_, ?_, ?_, ?_, ?_, ?_, ?_, ?_⟩
  · simp [generateJsxRecursive, renderElements_eq_map, List.enum]
  · simp [List.enum]
  · intro i tag props
    simp [renderElement, propsString]
  · intro i tag props c cs
    simp [renderElement, propsString, generateJsxRecursive]
  · simp [indentOf, Nat.mul_add, List.replicate_succ]
  · intro name value
    simp [propEntryString]
  · intro m
    have hf : styleEntryString
        = fun e => e.1 ++ ": \x27".toList ++ e.2 ++ "\x27".toList := by
      funext e
      simp [styleEntryString]
    simp [propEntryString, hf]
  · intro name m hne
    simp only [propEntryString, hne, if_false, propValueString]
  · decide

theorem lowerLetter_of_not_upper (c : Char) (h : ¬ (65 ≤ c.toNat ∧ c.toNat ≤ 90)) :
    lowerLetter c = c := by
  have hnone : ("ABCDEFGHIJKLMNOPQRSTUVWXYZ".toList.zip "abcdefghijklmnopqrstuvwxyz".toList).find?
      (fun p => p.1 == c) = none := by
    rw [List.find?_eq_none]
    intro p hp
    have hr : ∀ q ∈ "ABCDEFGHIJKLMNOPQRSTUVWXYZ".toList.zip "abcdefghijklmnopqrstuvwxyz".toList,
        65 ≤ q.1.toNat ∧ q.1.toNat ≤ 90 := by decide
    intro he
    have he' : p.1 = c := by simpa using he
    exact h (he' ▸ hr p hp)
  unfold lowerLetter
  rw [hnone]

theorem lowerAscii_eq_lowerLetter (c : Char) : lowerAscii c = lowerLetter c := by
  by_cases h : 65 ≤ c.toNat ∧ c.toNat ≤ 90
  · have hc : c = Char.ofNat c.toNat := (Char.ofNat_toNat c).symm
    obtain ⟨h1, h2⟩ := h
    generalize c.toNat = n at hc h1 h2
    subst hc
    interval_cases n <;> decide
  · rw [lowerLetter_of_not_upper c h]
    unfold lowerAscii
    rw [if_neg h]

theorem toLowerCase_ascii (lower : Str → Str) (tag : Str)
    (h : tag.all (fun c => c.toNat < 128) = true) :
    toLowerCase lower tag = tag.map lowerLetter := by
  unfold toLowerCase
  rw [if_pos h]
  exact List.map_congr_left (fun c _ => lowerAscii_eq_lowerLetter c)

/-- C2: `parseElementsRecursive` returns one node per direct child element, in
document order; a node's tag is the child's tag name lower-cased and its
children are the recursive parse of that child (none for a childless child), so
the node tree has the shape of the element tree below the root.  Lower-cased
means: in a tag name written in ASCII each letter `A` to `Z` becomes `a` to `z`
and nothing else changes (`linearGradient` becomes `lineargradient`); any other
tag name is lower-cased by the host.  For
`<svg viewBox="0 0 24 24"><path d="M1 1h2v2"/></svg>` the result is the single
node `path` with property `d="M1 1h2v2"` and no children. -/
theorem parseElementsRecursive_nodes (lower : Str → Str) (element : Element) :
    parseElementsRecursive lower element = element.children.map (parseChild lower)
    ∧ (parseElementsRecursive lower element).length = element.children.length
    ∧ (∀ child : Element,
        (parseChild lower child).type = toLowerCase lower child.tagName
        ∧ (parseChild lower child).children = parseElementsRecursive lower child)
    ∧ (∀ (tag : Str) (attrs : List (Str × Str)),
        (parseChild lower (Element.mk tag attrs [])).children = [])
    ∧ nodeTagTrees (parseElementsRecursive lower element)
        = elementTagTrees lower element.children
    ∧ parseElementsRecursive lower
          (Element.mk "svg".toList [("viewBox".toList, "0 0 24 24".toList)]
            [Element.mk "path".toList [("d".toList, "M1 1h2v2".toList)] []])
        = [ElementNode.mk "path".toList [("d".toList, PropValue.str "M1 1h2v2".toList)] []]
    ∧ (∀ child : Element, child.tagName.all (fun c => c.toNat < 128) = true →
        (parseChild lower child).type = child.tagName.map lowerLetter)
    ∧ (∀ child : Element, child.tagName.all (fun c => c.toNat < 128) = false →
        (parseChild lower child).type = lower child.tagName)
    ∧ toLowerCase lower "ABCDEFGHIJKLMNOPQRSTUVWXYZ az09@[-_:.".toList
        = "abcdefghijklmnopqrstuvwxyz az09@[-_:.".toList
    ∧ parseElementsRecursive lower svgGradient
        = [ElementNode.mk "lineargradient".toList [("id".toList, PropValue.str "g".toList)]
            [ElementNode.mk "stop".toList [("offset".toList, PropValue.str "0".toList)] []],
           ElementNode.mk "clippath".toList [] []]
    ∧ nodeTagTrees (parseElementsRecursive lower svgGradient)
        = [TagTree.node "lineargradient".toList [TagTree.node "stop".toList []],
           TagTree.node "clippath".toList []] := by
  have htype : ∀ child : Element,
      (parseChild lower child).type = toLowerCase lower child.tagName := by
    intro child
    cases child with
    | mk t a c => simp [parseChild, ElementNode.type, Element.tagName]
  refine ⟨?_, ?_, ?_, ?_, ?_, ?_, ?_, ?_, ?_, ?_, ?_⟩
  · simp [parseElementsRecursive, parseChildren_eq_map]
  · simp [parseElementsRecursive, parseChildren_eq_map]
  · intro child
    exact ⟨htype child, parseChild_children lower child⟩
  · intro tag attrs
    simp [parseChild, ElementNode.children]
  · exact tagTree_parseChildren lower element.children
  · rfl
  · intro child h
    rw [htype child, toLowerCase_ascii lower _ h]
  · intro child h
    rw [htype child]
    unfold toLowerCase
    rw [if_neg (by rw [h]; decide)]
  · rfl
  · rfl
  · rfl

theorem handleError_parsedData (s : Session) (msg : Str) :
    (handleError s msg).parsedData = s.parsedData := by
  unfold handleError
  split <;> rfl

theorem handleError_viewBoxValues (s : Session) (msg : Str) :
    (handleError s msg).viewBoxValues = s.viewBoxValues := by
  unfold handleError
  split <;> rfl

/-- A parse that stores a tree went through every check: the input is not
blank, the document has no parser error and has an `svg` element with at least
one child element, and the stored data are the parsed children and the resolved
frame. -/
theorem parseSvg_success (host : Host) (s : Session) (pd : ParsedData)
    (h : (parseSvg host s).parsedData = some pd) :
    ∃ svg : Element,
      (host.parseFromString s.svgInput).svgElement = some svg
      ∧ (host.parseFromString s.svgInput).parseError = none
      ∧ (trim s.svgInput).isEmpty = false
      ∧ parseElementsRecursive host.lowerUnicode svg ≠ []
      ∧ pd.elements = parseElementsRecursive host.lowerUnicode svg
      ∧ pd.originalViewBox = resolveViewBox host.printReal svg
      ∧ (parseSvg host s).viewBoxValues
          = some (viewBoxOfString (resolveViewBox host.printReal svg)) := by
  unfold parseSvg at h ⊢
  by_cases hb : (trim s.svgInput).isEmpty = true
  · simp [hb, handleError_parsedData] at h
  · simp only [hb] at h ⊢
    generalize host.parseFromString s.svgInput = doc at h ⊢
    rcases doc with ⟨svgO, errO⟩
    cases errO with
    | some text => simp [handleError_parsedData] at h
    | none =>
      cases svgO with
      | none => simp [handleError_parsedData] at h
      | some svg =>
        simp only at h ⊢
        by_cases hl : (parseElementsRecursive host.lowerUnicode svg).length = 0
        · simp [hl, handleError_parsedData] at h
        · simp only [hl, if_false] at h ⊢
          simp only [Bool.false_eq_true, if_false, Option.some.injEq] at h ⊢
          refine ⟨svg, rfl, trivial, trivial, ?_, ?_, ?_, rfl⟩
          · intro hnil
            exact hl (by simp [hnil])
          · rw [← h]
          · rw [← h]

/-- C3, as stated, fails: for `<svg width="" height="32">…</svg>` both `width`
and `height` exist, so the stated rule gives `0 0 NaN 32`, while the parse
succeeds with the frame `0 0 24 24`. -/
theorem resolved_frame_empty_width :
    ((parseSvg (hostOf svgEmptyWidth)
        (sessionOf "<svg width=\"\" height=\"32\"><path d=\"M1 1h2v2\"/></svg>".toList)).parsedData.map
          ParsedData.originalViewBox) = some "0 0 24 24".toList
    ∧ claimedViewBox (hostOf svgEmptyWidth).printReal svgEmptyWidth = "0 0 NaN 32".toList
    ∧ "0 0 24 24".toList ≠ "0 0 NaN 32".toList := by
  refine ⟨by rfl, by decide, by decide⟩

/-- C3, amended: on every successful parse the stored `originalViewBox` is the
`viewBox` attribute of the `svg` element verbatim when it exists and is
non-empty; otherwise `0 0 <w> <h>`, with `w` and `h` the `parseFloat` values of
`width` and `height`, when both attributes exist and are non-empty; otherwise
`0 0 24 24`. -/
theorem parseSvg_resolved_frame (host : Host) (s : Session) (pd : ParsedData)
    (h : (parseSvg host s).parsedData = some pd) :
    ∃ svg : Element,
      (host.parseFromString s.svgInput).svgElement = some svg
      ∧ (∀ v : Str, svg.getAttribute "viewBox".toList = some v → v ≠ [] →
          pd.originalViewBox = v)
      ∧ (∀ w ht : Str,
          (svg.getAttribute "viewBox".toList = none ∨ svg.getAttribute "viewBox".toList = some []) →
          svg.getAttribute "width".toList = some w → w ≠ [] →
          svg.getAttribute "height".toList = some ht → ht ≠ [] →
          pd.originalViewBox
            = "0 0 ".toList ++ numToString host.printReal (parseFloat w) ++ " ".toList
                ++ numToString host.printReal (parseFloat ht))
      ∧ ((svg.getAttribute "viewBox".toList = none ∨ svg.getAttribute "viewBox".toList = some []) →
          (svg.getAttribute "width".toList = none ∨ svg.getAttribute "width".toList = some []
            ∨ svg.getAttribute "height".toList = none
            ∨ svg.getAttribute "height".toList = some []) →
          pd.originalViewBox = "0 0 24 24".toList) := by
  obtain ⟨svg, hsvg, -, -, -, -, hvb, -⟩ := parseSvg_success host s pd h
  refine ⟨svg, hsvg, ?_, ?_, ?_⟩
  · intro v hv hne
    rw [hvb]
    unfold resolveViewBox
    rw [hv]
    cases v with
    | nil => exact absurd rfl hne
    | cons c cs => rfl
  · intro w ht hv hw hwne hh hhne
    rw [hvb]
    unfold resolveViewBox
    cases w with
    | nil => exact absurd rfl hwne
    | cons c cs =>
      cases ht with
      | nil => exact absurd rfl hhne
      | cons d ds => rcases hv with hv | hv <;> simp only [hv, hw, hh]
  · intro hv hwh
    rw [hvb]
    unfold resolveViewBox
    rcases hv with hv | hv <;> rcases hwh with hw | hw | hh | hh
    all_goals first
      | simp only [hv, hw]
      | (simp only [hv, hh]
         cases svg.getAttribute "width".toList with
         | none => rfl
         | some w => cases w <;> rfl)

/-- The amended C3 at `<svg width="32" height="32">…</svg>`: the frame is
`0 0 32 32`. -/
theorem parseSvg_resolved_frame_sized :
    (parseSvg (hostOf svgSized)
        (sessionOf "<svg width=\"32\" height=\"32\"><path d=\"M1 1h2v2\"/></svg>".toList)).parsedData
      = some { elements := [ElementNode.mk "path".toList
                  [("d".toList, PropValue.str "M1 1h2v2".toList)] []]
               originalViewBox := "0 0 32 32".toList }
    ∧ ∃ svg : Element,
      ((hostOf svgSized).parseFromString
          (sessionOf "<svg width=\"32\" height=\"32\"><path d=\"M1 1h2v2\"/></svg>".toList).svgInput).svgElement
        = some svg
      ∧ (∀ v : Str, svg.getAttribute "viewBox".toList = some v → v ≠ [] →
          "0 0 32 32".toList = v)
      ∧ (∀ w ht : Str,
          (svg.getAttribute "viewBox".toList = none ∨ svg.getAttribute "viewBox".toList = some []) →
          svg.getAttribute "width".toList = some w → w ≠ [] →
          svg.getAttribute "height".toList = some ht → ht ≠ [] →
          "0 0 32 32".toList
            = "0 0 ".toList ++ numToString (hostOf svgSized).printReal (parseFloat w) ++ " ".toList
                ++ numToString (hostOf svgSized).printReal (parseFloat ht))
      ∧ ((svg.getAttribute "viewBox".toList = none ∨ svg.getAttribute "viewBox".toList = some []) →
          (svg.getAttribute "width".toList = none ∨ svg.getAttribute "width".toList = some []
            ∨ svg.getAttribute "height".toList = none
            ∨ svg.getAttribute "height".toList = some []) →
          "0 0 32 32".toList = "0 0 24 24".toList) :=
  ⟨rfl, parseSvg_resolved_frame (hostOf svgSized)
    (sessionOf "<svg width=\"32\" height=\"32\"><path d=\"M1 1h2v2\"/></svg>".toList)
    { elements := [ElementNode.mk "path".toList [("d".toList, PropValue.str "M1 1h2v2".toList)] []]
      originalViewBox := "0 0 32 32".toList } rfl⟩

theorem valToString_nat (printReal : Str → Str) (n : Nat) :
    valToString printReal (some (JsNum.int (n : Int))) = (Nat.repr n).toList := by
  have h : ¬ ((n : Int) < 0) := by omega
  simp only [valToString, numToString, if_neg h, natToStr, Int.toNat_ofNat]
  rfl

theorem valToString_neg (printReal : Str → Str) (n : Nat) :
    valToString printReal (some (JsNum.int (-((n : Int) + 1))))
      = '-' :: (Nat.repr (n + 1)).toList := by
  have h : (-((n : Int) + 1)) < 0 := by omega
  have habs : (-((n : Int) + 1)).natAbs = n + 1 := by omega
  simp only [valToString, numToString, if_pos h, natToStr, habs]
  rfl

set_option maxRecDepth 20000 in
theorem artifact_parsedSample :
    generateComponentCode (hostOf svgSample) parsedSample = sampleArtifact "0 0 24 24".toList := by
  decide

set_option maxRecDepth 20000 in
theorem artifact_width_edited :
    generateComponentCode (hostOf svgSample)
        (handleViewBoxChange parsedSample "width".toList "48".toList)
      = sampleArtifact "0 0 48 24".toList := by
  decide

set_option maxRecDepth 20000 in
theorem artifact_three_edits :
    generateComponentCode (hostOf svgSample)
        (handleViewBoxChange
          (handleViewBoxChange (handleViewBoxChange parsedSample "minX".toList []) "minY".toList
            "-3".toList)
          "height".toList "abc".toList)
      = sampleArtifact "0 -3 24 NaN".toList := by
  decide

set_option maxRecDepth 20000 in
theorem artifact_short_frame :
    generateComponentCode (hostOf svgShortFrame) parsedShortFrame
      = sampleArtifact "0 -5 NaN undefined".toList := by
  decide

set_option maxRecDepth 20000 in
theorem artifact_edit_differs :
    sampleArtifact "0 0 24 24".toList ≠ sampleArtifact "0 0 48 24".toList := by
  decide

/-- C4: with a parsed tree and working values, `generateComponentCode` returns
the fixed artifact text, line by line: the two imports, the component named by
the component name, the `SvgIcon` wrapper whose `viewBox` is the four working
values separated by single spaces, the generated elements, and the default
export.  A value is printed as JavaScript prints it: an integer in decimal
digits with its sign, `NaN`, `undefined` for a missing field, any other number
by the host.  The stored `originalViewBox` does not occur; an edit of a field
shows in the text: for `<svg viewBox="0 0 24 24"><path d="M1 1h2v2"/></svg>`
the artifact has `viewBox="0 0 24 24"`, and `viewBox="0 0 48 24"` after the
width is edited to 48.  Without a parsed tree, or without working values, the
result is the empty string. -/
theorem generateComponentCode_artifact (host : Host) (s : Session) (pd : ParsedData)
    (vb : ViewBoxValues) :
    generateComponentCode host { s with parsedData := some pd, viewBoxValues := some vb }
      = join "\n".toList
          [ "import React from \x27react\x27;".toList,
            "import \x7b SvgIcon \x7d from \x27@mui/material\x27;".toList,
            [],
            "const ".toList ++ s.componentName ++ " = (props) => \x7b".toList,
            "  return (".toList,
            "    <SvgIcon \x7b...props\x7d viewBox=\"".toList
              ++ join " ".toList
                  [ valToString host.printReal vb.minX, valToString host.printReal vb.minY,
                    valToString host.printReal vb.width, valToString host.printReal vb.height ]
              ++ "\">".toList,
            generateJsxRecursive pd.elements 3,
            "    </SvgIcon>".toList,
            "  );".toList,
            "\x7d;".toList,
            [],
            "export default ".toList ++ s.componentName ++ ";".toList ]
    ∧ (∀ frame : Str,
        generateComponentCode host
            { s with parsedData := some { pd with originalViewBox := frame }
                     viewBoxValues := some vb }
          = generateComponentCode host
              { s with parsedData := some pd, viewBoxValues := some vb })
    ∧ (∀ value : Str,
        generateComponentCode host
            (handleViewBoxChange { s with parsedData := some pd, viewBoxValues := some vb }
              "width".toList value)
          = generateComponentCode host
              { s with parsedData := some pd
                       viewBoxValues := some { vb with
                         width := some (if value.isEmpty then JsNum.int 0 else parseFloat value) } })
    ∧ generateComponentCode host { s with parsedData := none } = []
    ∧ generateComponentCode host { s with viewBoxValues := none } = []
    ∧ (∀ n : Nat,
        valToString host.printReal (some (JsNum.int (n : Int))) = (Nat.repr n).toList
        ∧ valToString host.printReal (some (JsNum.int (-((n : Int) + 1))))
            = '-' :: (Nat.repr (n + 1)).toList)
    ∧ valToString host.printReal (some JsNum.nan) = "NaN".toList
    ∧ valToString host.printReal none = "undefined".toList
    ∧ (∀ lit : Str, valToString host.printReal (some (JsNum.real lit)) = host.printReal lit)
    ∧ generateComponentCode (hostOf svgSample) parsedSample
        = sampleArtifact "0 0 24 24".toList
    ∧ generateComponentCode (hostOf svgSample)
          (handleViewBoxChange parsedSample "width".toList "48".toList)
        = sampleArtifact "0 0 48 24".toList
    ∧ generateComponentCode (hostOf svgSample)
          (handleViewBoxChange
            (handleViewBoxChange (handleViewBoxChange parsedSample "minX".toList []) "minY".toList
              "-3".toList)
            "height".toList "abc".toList)
        = sampleArtifact "0 -3 24 NaN".toList
    ∧ generateComponentCode (hostOf svgShortFrame) parsedShortFrame
        = sampleArtifact "0 -5 NaN undefined".toList
    ∧ sampleArtifact "0 0 24 24".toList ≠ sampleArtifact "0 0 48 24".toList
    ∧ (parsedSample.parsedData.map ParsedData.originalViewBox) = some "0 0 24 24".toList
    ∧ ((handleViewBoxChange parsedSample "width".toList "48".toList).parsedData.map
        ParsedData.originalViewBox) = some "0 0 24 24".toList := by
  refine ⟨?_, ?_, ?_, ?_, ?_, fun n => ⟨valToString_nat _ n, valToString_neg _ n⟩, rfl, rfl,
    fun lit => rfl, artifact_parsedSample, artifact_width_edited, artifact_three_edits,
    artifact_short_frame, artifact_edit_differs, rfl, rfl⟩
  · simp only [generateComponentCode, join, List.append_assoc]
    rfl
  · intro frame
    rfl
  · intro value
    have hw : ("width".toList = "minX".toList) = False := by decide
    have hw2 : ("width".toList = "minY".toList) = False := by decide
    simp only [handleViewBoxChange, Option.getD_some, hw, hw2, if_false, if_true]
  · rfl
  · cases hp : s.parsedData <;> simp only [generateComponentCode, hp]

/-- C5: the code at the segment `background:url(http://x/y.png)`: `split(':')`
cuts at every colon and the destructuring keeps the first two pieces, so the
stored value is `url(http`, not the whole text after the first colon. -/
theorem parseStyleStringToObject_later_colon :
    parseStyleStringToObject "background:url(http://x/y.png)".toList
      = [("background".toList, "url(http".toList)]
    ∧ split ':' "background:url(http://x/y.png)".toList
      = ["background".toList, "url(http".toList, "//x/y.png)".toList]
    ∧ objGet (parseStyleStringToObject "background:url(http://x/y.png)".toList)
        "background".toList ≠ some "url(http://x/y.png)".toList := by
  decide

/-- C10: from any state, a parse requested with empty or whitespace-only input
ends with the empty-input message as error text (non-empty), the console
opened, and neither a parsed tree nor working viewBox values. -/
theorem parseSvg_blank_input (host : Host) (s : Session)
    (h : (trim s.svgInput).isEmpty = true) :
    (parseSvg host s).error = "请输入SVG内容。".toList
    ∧ (parseSvg host s).error ≠ []
    ∧ (parseSvg host s).isConsoleOpen = true
    ∧ (parseSvg host s).parsedData = none
    ∧ (parseSvg host s).viewBoxValues = none
    ∧ (parseSvg host s).svgInput = s.svgInput
    ∧ (parseSvg host s).componentName = s.componentName := by
  have hmsg : ("请输入SVG内容。".toList.isEmpty) = false := by decide
  have hnil : (([] : Str).isEmpty) = true := rfl
  simp [parseSvg, h, handleError, hmsg, hnil]

/-- C10 at a session that holds a parsed tree and working values, with blank
input: the failed parse clears both. -/
theorem parseSvg_blank_input_clears :
    (trim parsedThenBlank.svgInput).isEmpty = true
    ∧ parsedThenBlank.parsedData.isSome = true
    ∧ parsedThenBlank.viewBoxValues.isSome = true
    ∧ (parseSvg (hostOf svgSample) parsedThenBlank).error = "请输入SVG内容。".toList
    ∧ (parseSvg (hostOf svgSample) parsedThenBlank).error ≠ []
    ∧ (parseSvg (hostOf svgSample) parsedThenBlank).isConsoleOpen = true
    ∧ (parseSvg (hostOf svgSample) parsedThenBlank).parsedData = none
    ∧ (parseSvg (hostOf svgSample) parsedThenBlank).viewBoxValues = none
    ∧ (parseSvg (hostOf svgSample) parsedThenBlank).svgInput = parsedThenBlank.svgInput
    ∧ (parseSvg (hostOf svgSample) parsedThenBlank).componentName
        = parsedThenBlank.componentName :=
  ⟨by decide, by rfl, by rfl,
    parseSvg_blank_input (hostOf svgSample) parsedThenBlank (by decide)⟩

/-! ### Splitting and plain objects -/

theorem split_ne_nil (sep : Char) (s : Str) : split sep s ≠ [] := by
  induction s with
  | nil => simp [split]
  | cons c rest ih =>
    unfold split
    split
    · simp
    · split <;> simp

theorem split_of_not_mem (sep : Char) (a : Str) (h : sep ∉ a) : split sep a = [a] := by
  induction a with
  | nil => rfl
  | cons c rest ih =>
    have hc : c ≠ sep := fun e => h (by simp [e])
    have hr : sep ∉ rest := fun e => h (by simp [e])
    simp [split, hc, ih hr]

theorem split_append_sep (sep : Char) (a rest : Str) (h : sep ∉ a) :
    split sep (a ++ sep :: rest) = a :: split sep rest := by
  induction a with
  | nil => simp [split]
  | cons c a ih =>
    have hc : c ≠ sep := fun e => h (by simp [e])
    have hr : sep ∉ a := fun e => h (by simp [e])
    simp [split, hc, ih hr]

theorem split_join (sep : Char) (pieces : List Str) (hne : pieces ≠ [])
    (h : ∀ p ∈ pieces, sep ∉ p) : split sep (join [sep] pieces) = pieces := by
  induction pieces with
  | nil => exact absurd rfl hne
  | cons p ps ih =>
    cases ps with
    | nil => simpa [join] using split_of_not_mem sep p (h p (by simp))
    | cons q qs =>
      have h1 : sep ∉ p := h p (by simp)
      have h2 := ih (by simp) (fun x hx => h x (by simp [hx]))
      simp only [join, List.append_assoc, List.singleton_append]
      rw [split_append_sep sep p _ h1, h2]

theorem objGet_cons {α : Type} (e : Str × α) (es : JsObject α) (k : Str) :
    objGet (e :: es) k = if e.1 = k then some e.2 else objGet es k := by
  by_cases h : e.1 = k <;> simp [objGet, List.find?_cons, h]

theorem hasKey_cons_false {α : Type} (e : Str × α) (es : JsObject α) (k : Str) :
    hasKey (e :: es) k = false ↔ e.1 ≠ k ∧ hasKey es k = false := by
  simp only [hasKey, List.any_cons, Bool.or_eq_false_iff, beq_eq_false_iff_ne]

theorem hasKey_cons_true {α : Type} (e : Str × α) (es : JsObject α) (k : Str) :
    hasKey (e :: es) k = true ↔ e.1 = k ∨ hasKey es k = true := by
  simp only [hasKey, List.any_cons, Bool.or_eq_true, beq_iff_eq]

theorem objGet_of_hasKey_false {α : Type} (o : JsObject α) (k : Str)
    (h : hasKey o k = false) : objGet o k = none := by
  induction o with
  | nil => rfl
  | cons e es ih =>
    rw [hasKey_cons_false] at h
    rw [objGet_cons, if_neg h.1, ih h.2]

theorem objGet_objReplace {α : Type} (o : JsObject α) (k k' : Str) (v : α)
    (h : hasKey o k = true) :
    objGet (objReplace k v o) k' = if k = k' then some v else objGet o k' := by
  induction o with
  | nil => simp [hasKey] at h
  | cons e es ih =>
    by_cases he : e.1 = k
    · simp only [objReplace, he, if_true, objGet_cons]
      by_cases hk : k = k' <;> simp [hk]
    · rw [hasKey_cons_true] at h
      have h : hasKey es k = true := h.resolve_left he
      simp only [objReplace, he, if_false, objGet_cons, ih h]
      by_cases hk : k = k'
      · subst hk
        simp [he]
      · simp [hk]

theorem objGet_objInsertIndex {α : Type} (o : JsObject α) (k k' : Str) (n : Nat) (v : α)
    (h : hasKey o k = false) :
    objGet (objInsertIndex k n v o) k' = if k = k' then some v else objGet o k' := by
  induction o with
  | nil => simp [objInsertIndex, objGet_cons, objGet]
  | cons e es ih =>
    rw [hasKey_cons_false] at h
    unfold objInsertIndex
    split
    · split
      · rw [objGet_cons, ih h.2, objGet_cons]
        by_cases hk : k = k'
        · subst hk
          simp [h.1]
        · simp [hk]
      · rw [objGet_cons]
    · rw [objGet_cons]

theorem objGet_append_new {α : Type} (o : JsObject α) (k k' : Str) (v : α)
    (h : hasKey o k = false) :
    objGet (o ++ [(k, v)]) k' = if k = k' then some v else objGet o k' := by
  induction o with
  | nil => simp [objGet_cons, objGet]
  | cons e es ih =>
    rw [hasKey_cons_false] at h
    rw [List.cons_append, objGet_cons, ih h.2, objGet_cons]
    by_cases hk : k = k'
    · subst hk
      simp [h.1]
    · simp [hk]

theorem objSet_proto {α : Type} (o : JsObject α) (v : α) :
    objSet o "__proto__".toList v = o := by
  unfold objSet
  rw [if_pos rfl]

/-- Reading after `obj[k] = v`, for a key other than `__proto__`: the new value
at `k`, the old value elsewhere. -/
theorem objGet_objSet {α : Type} (o : JsObject α) (k k' : Str) (v : α)
    (hk : k ≠ "__proto__".toList) :
    objGet (objSet o k v) k' = if k = k' then some v else objGet o k' := by
  unfold objSet
  rw [if_neg hk]
  by_cases h : hasKey o k = true
  · rw [if_pos h]
    exact objGet_objReplace o k k' v h
  · rw [if_neg h]
    have hf : hasKey o k = false := by simpa using h
    split
    · exact objGet_objInsertIndex o k k' _ v hf
    · exact objGet_append_new o k k' v hf

/-! ### Style strings -/

theorem trim_nil : trim [] = [] := rfl

theorem styleStep_decl (o : JsObject Str) (p v : Str)
    (h : (StyleSegment.decl p v).WellFormed) :
    styleStep o (StyleSegment.decl p v).text = objSet o (camelCase (trim p)) (trim v) := by
  obtain ⟨hp, hv, hpc, -, hvc, -⟩ := h
  have hp' : p ≠ [] := fun e => hp (by rw [e, trim_nil])
  have hv' : v ≠ [] := fun e => hv (by rw [e, trim_nil])
  unfold styleStep StyleSegment.text
  rw [split_append_sep ':' p v hpc, split_of_not_mem ':' v hvc]
  simp [hp', hv']

theorem styleStep_other (o : JsObject Str) (t : Str)
    (h : (StyleSegment.other t).WellFormed) :
    styleStep o (StyleSegment.other t).text = o := by
  unfold styleStep StyleSegment.text
  rw [split_of_not_mem ':' t h.1]

theorem text_no_semicolon (sg : StyleSegment) (h : sg.WellFormed) : ';' ∉ sg.text := by
  cases sg with
  | decl p v =>
    obtain ⟨-, -, -, hp, -, hv⟩ := h
    simp [StyleSegment.text, hp, hv]
  | other t => exact h.2

theorem foldl_styleStep (segs : List StyleSegment) (h : ∀ sg ∈ segs, sg.WellFormed)
    (o : JsObject Str) :
    (segs.map StyleSegment.text).foldl styleStep o
      = (declsOf segs).foldl (fun acc d => objSet acc (camelCase (trim d.1)) (trim d.2)) o := by
  induction segs generalizing o with
  | nil => rfl
  | cons sg rest ih =>
    have hsg := h sg (by simp)
    have hrest : ∀ x ∈ rest, x.WellFormed := fun x hx => h x (by simp [hx])
    cases sg with
    | decl p v =>
      simp only [List.map_cons, List.foldl_cons, declsOf]
      rw [styleStep_decl o p v hsg, ih hrest]
    | other t =>
      simp only [List.map_cons, List.foldl_cons, declsOf]
      rw [styleStep_other o t hsg, ih hrest]

theorem styleMapOf_cons (d : Str × Str) (ds : List (Str × Str)) (k : Str) :
    styleMapOf (d :: ds) k
      = match styleMapOf ds k with
        | some v => some v
        | none => if camelCase (trim d.1) = k then some (trim d.2) else none := by
  unfold styleMapOf
  rw [List.reverse_cons, List.find?_append]
  cases hf : ds.reverse.find? (fun d => camelCase (trim d.1) == k) with
  | some x => simp
  | none =>
    by_cases hk : camelCase (trim d.1) = k <;> simp [List.find?_cons, hk]

theorem objGet_foldl_set (decls : List (Str × Str)) (o : JsObject Str) (k : Str) :
    objGet (decls.foldl (fun acc d => objSet acc (camelCase (trim d.1)) (trim d.2)) o) k
      = match styleMapOf (ownDecls decls) k with
        | some v => some v
        | none => objGet o k := by
  induction decls generalizing o with
  | nil => simp [styleMapOf, ownDecls]
  | cons d ds ih =>
    rw [List.foldl_cons, ih]
    by_cases hp : camelCase (trim d.1) = "__proto__".toList
    · have ho : ownDecls (d :: ds) = ownDecls ds := by
        simp [ownDecls, List.filter_cons, hp]
      rw [ho, hp, objSet_proto]
    · have ho : ownDecls (d :: ds) = d :: ownDecls ds := by
        simp only [ownDecls, List.filter_cons, bne_iff_ne, ne_eq, hp, not_false_eq_true,
          if_true]
      rw [ho, styleMapOf_cons, objGet_objSet _ _ _ _ hp]
      cases styleMapOf (ownDecls ds) k with
      | some v => rfl
      | none =>
        by_cases hk : camelCase (trim d.1) = k <;> simp [hk]

theorem ownDecls_of_no_proto (decls : List (Str × Str))
    (h : ∀ d ∈ decls, camelCase (trim d.1) ≠ "__proto__".toList) : ownDecls decls = decls := by
  unfold ownDecls
  rw [List.filter_eq_self]
  intro d hd
  simpa using h d hd

theorem parse_of_segments (segs : List StyleSegment) (h : ∀ sg ∈ segs, sg.WellFormed) :
    parseStyleStringToObject (join ";".toList (segs.map StyleSegment.text))
      = (declsOf segs).foldl (fun acc d => objSet acc (camelCase (trim d.1)) (trim d.2)) [] := by
  unfold parseStyleStringToObject
  by_cases he : (join ";".toList (segs.map StyleSegment.text)).isEmpty = true
  · rw [if_pos he]
    cases segs with
    | nil => rfl
    | cons sg rest =>
      cases rest with
      | nil =>
        cases sg with
        | decl p v => simp [join, StyleSegment.text] at he
        | other t => rfl
      | cons sg2 rest2 => simp [join] at he
  · rw [if_neg he]
    have hne : segs.map StyleSegment.text ≠ [] := by
      intro e
      rw [e] at he
      exact he rfl
    have hs : split ';' (join [';'] (segs.map StyleSegment.text)) = segs.map StyleSegment.text := by
      apply split_join ';' _ hne
      intro p hp
      obtain ⟨sg, hsg, rfl⟩ := List.mem_map.mp hp
      exact text_no_semicolon sg (h sg hsg)
    have hj : ";".toList = [';'] := rfl
    rw [hj, hs, foldl_styleStep segs h]

/-- C6, as stated, fails: the declaration `__proto__:x` is well formed (name and
value non-empty after trimming, no `:` or `;`), yet the assignment
`styleObject['__proto__'] = 'x'` creates no property, so the result is the empty
map and does not send `__proto__` to `x`. -/
theorem style_declaration_named_proto :
    (StyleSegment.decl "__proto__".toList "x".toList).WellFormed
    ∧ (StyleSegment.decl "__proto__".toList "x".toList).text = "__proto__:x".toList
    ∧ camelCase (trim "__proto__".toList) = "__proto__".toList
    ∧ styleMapOf [("__proto__".toList, "x".toList)] "__proto__".toList = some "x".toList
    ∧ parseStyleStringToObject "__proto__:x".toList = []
    ∧ objGet (parseStyleStringToObject "__proto__:x".toList) "__proto__".toList = none := by
  refine ⟨by decide, by decide, by decide, by decide, by decide, by decide⟩

/-- C6, amended: for a style string made of segments joined by `;`, each either
a declaration `p:v` (with `p` and `v` non-empty after trimming and free of `:`
and `;`) or a segment without a colon (possibly empty),
`parseStyleStringToObject` returns the map that sends each trimmed, camelCased
`p` other than `__proto__` to its trimmed `v` (the later declaration counting
when two name the same property) and nothing else: a declaration named
`__proto__` creates no entry and the other segments are dropped.  When no
declaration is named `__proto__` this is the map of all the declarations.
`a:1;b:2` gives `{a: "1", b: "2"}` and the empty string gives the empty map. -/
theorem parseStyleStringToObject_map (segs : List StyleSegment)
    (h : ∀ sg ∈ segs, sg.WellFormed) :
    (∀ k : Str,
      objGet (parseStyleStringToObject (join ";".toList (segs.map StyleSegment.text))) k
        = styleMapOf (ownDecls (declsOf segs)) k)
    ∧ ((∀ d ∈ declsOf segs, camelCase (trim d.1) ≠ "__proto__".toList) →
        ∀ k : Str,
          objGet (parseStyleStringToObject (join ";".toList (segs.map StyleSegment.text))) k
            = styleMapOf (declsOf segs) k)
    ∧ parseStyleStringToObject (join ";".toList (segs.map StyleSegment.text))
        = parseStyleStringToObject
            (join ";".toList ((declsOf segs).map (fun d => d.1 ++ ':' :: d.2)))
    ∧ parseStyleStringToObject "a:1;b:2".toList
        = [("a".toList, "1".toList), ("b".toList, "2".toList)]
    ∧ parseStyleStringToObject [] = [] := by
  have hmain : ∀ k : Str,
      objGet (parseStyleStringToObject (join ";".toList (segs.map StyleSegment.text))) k
        = styleMapOf (ownDecls (declsOf segs)) k := by
    intro k
    rw [parse_of_segments segs h, objGet_foldl_set]
    cases styleMapOf (ownDecls (declsOf segs)) k <;> rfl
  refine ⟨hmain, ?_, ?_, by decide, rfl⟩
  · intro hno k
    rw [hmain k, ownDecls_of_no_proto _ hno]
  · rw [parse_of_segments segs h]
    have hd : ∀ ds : List (Str × Str),
        ds.map (fun d => d.1 ++ ':' :: d.2)
          = (ds.map (fun d => StyleSegment.decl d.1 d.2)).map StyleSegment.text := by
      intro ds
      simp [StyleSegment.text]
    have hdecl : ∀ ss : List StyleSegment,
        declsOf ((declsOf ss).map (fun d => StyleSegment.decl d.1 d.2)) = declsOf ss := by
      intro ss
      induction ss with
      | nil => rfl
      | cons sg rest ih => cases sg <;> simp [declsOf, ih]
    have hwf : ∀ ss : List StyleSegment, (∀ sg ∈ ss, sg.WellFormed) →
        ∀ sg ∈ (declsOf ss).map (fun d => StyleSegment.decl d.1 d.2), sg.WellFormed := by
      intro ss
      induction ss with
      | nil => intro _ sg hsg; simp [declsOf] at hsg
      | cons x rest ih =>
        intro hx sg hsg
        have hrest : ∀ y ∈ rest, y.WellFormed := fun y hy => hx y (by simp [hy])
        cases x with
        | decl p v =>
          simp only [declsOf, List.map_cons, List.mem_cons] at hsg
          rcases hsg with rfl | hsg
          · exact hx _ (by simp)
          · exact ih hrest sg hsg
        | other t => exact ih hrest sg (by simpa [declsOf] using hsg)
    rw [hd, parse_of_segments _ (hwf segs h), hdecl]

/-- The amended C6 at `" font-size : 12px ;novalue;a:1;;__proto__:x;a:2"`: the
declarations give `fontSize ↦ "12px"` and `a ↦ "2"`; the declaration named
`__proto__` and the two other segments leave no entry. -/
theorem parseStyleStringToObject_map_sample :
    join ";".toList (sampleSegments.map StyleSegment.text)
        = " font-size : 12px ;novalue;a:1;;__proto__:x;a:2".toList
    ∧ parseStyleStringToObject " font-size : 12px ;novalue;a:1;;__proto__:x;a:2".toList
        = [("fontSize".toList, "12px".toList), ("a".toList, "2".toList)]
    ∧ ownDecls (declsOf sampleSegments)
        = [(" font-size ".toList, " 12px ".toList), ("a".toList, "1".toList),
           ("a".toList, "2".toList)]
    ∧ ((∀ k : Str,
        objGet (parseStyleStringToObject
            (join ";".toList (sampleSegments.map StyleSegment.text))) k
          = styleMapOf (ownDecls (declsOf sampleSegments)) k)
      ∧ ((∀ d ∈ declsOf sampleSegments, camelCase (trim d.1) ≠ "__proto__".toList) →
          ∀ k : Str,
            objGet (parseStyleStringToObject
                (join ";".toList (sampleSegments.map StyleSegment.text))) k
              = styleMapOf (declsOf sampleSegments) k)
      ∧ parseStyleStringToObject (join ";".toList (sampleSegments.map StyleSegment.text))
          = parseStyleStringToObject
              (join ";".toList ((declsOf sampleSegments).map (fun d => d.1 ++ ':' :: d.2)))
      ∧ parseStyleStringToObject "a:1;b:2".toList
          = [("a".toList, "1".toList), ("b".toList, "2".toList)]
      ∧ parseStyleStringToObject [] = []) :=
  ⟨by decide, by decide, by decide,
    parseStyleStringToObject_map sampleSegments (by decide)⟩

/-! ### Attribute names -/

theorem upperAZ_ne_hyphen (d : Char) (h : isLowerAZ d = true) : upperAZ d ≠ '-' := by
  have hb : 97 ≤ d.toNat ∧ d.toNat ≤ 122 := by
    simpa [isLowerAZ] using h
  obtain ⟨h1, h2⟩ := hb
  unfold upperAZ
  generalize d.toNat = n at h1 h2
  interval_cases n <;> decide

theorem isLowerAZ_ne_hyphen (d : Char) (h : isLowerAZ d = true) : d ≠ '-' := by
  intro e
  rw [e] at h
  exact absurd h (by decide)

theorem hyphensLed_tail (d : Char) (rest : Str) (h : hyphensLed (d :: rest) = true) :
    hyphensLed rest = true := by
  cases rest with
  | nil => rfl
  | cons e r =>
    simp only [hyphensLed, Bool.and_eq_true] at h
    exact h.2

theorem camelCase_cons_ne (c d : Char) (t : Str) (hc : c ≠ '-') :
    camelCase (c :: d :: t) = c :: camelCase (d :: t) := by
  rw [camelCase]
  simp [hc]

theorem camelCase_hyphen_lower (d : Char) (t : Str) (hd : isLowerAZ d = true) :
    camelCase ('-' :: d :: t) = upperAZ d :: camelCase t := by
  rw [camelCase]
  simp [hd]

theorem hyphensToCamel_cons_ne (c : Char) (t : Str) (hc : c ≠ '-') :
    hyphensToCamel false (c :: t) = c :: hyphensToCamel false t := by
  rw [hyphensToCamel]
  simp [hc]

theorem hyphensToCamel_hyphen_lower (d : Char) (t : Str) (hd : isLowerAZ d = true) :
    hyphensToCamel false ('-' :: d :: t) = upperAZ d :: hyphensToCamel false t := by
  have hdne : d ≠ '-' := isLowerAZ_ne_hyphen d hd
  rw [hyphensToCamel]
  simp only [if_true]
  rw [hyphensToCamel]
  simp [hdne, hd]

theorem camelCase_of_hyphensLed (n : Nat) :
    ∀ name : Str, name.length ≤ n → hyphensLed name = true →
      camelCase name = hyphensToCamel false name ∧ '-' ∉ camelCase name := by
  induction n with
  | zero =>
    intro name hl _
    have : name = [] := List.length_eq_zero.mp (Nat.le_zero.mp hl)
    subst this
    simp [camelCase, hyphensToCamel]
  | succ n ih =>
    intro name hl hled
    match name, hl, hled with
    | [], _, _ => simp [camelCase, hyphensToCamel]
    | [c], _, hled =>
      have hc : c ≠ '-' := by simpa [hyphensLed] using hled
      simp [camelCase, hyphensToCamel, hc, Ne.symm hc]
    | c :: d :: rest, hl, hled =>
      simp only [hyphensLed, Bool.and_eq_true, Bool.or_eq_true, bne_iff_ne] at hled
      obtain ⟨hcd, hrest⟩ := hled
      by_cases hc : c = '-'
      · have hd : isLowerAZ d = true := hcd.resolve_left (fun hne => hne hc)
        have hlen : rest.length ≤ n := by
          simp only [List.length_cons] at hl
          omega
        obtain ⟨e1, e2⟩ := ih rest hlen (hyphensLed_tail d rest hrest)
        have hu := upperAZ_ne_hyphen d hd
        subst hc
        rw [camelCase_hyphen_lower d rest hd, hyphensToCamel_hyphen_lower d rest hd, e1]
        refine ⟨rfl, ?_⟩
        simp only [List.mem_cons, not_or]
        exact ⟨Ne.symm hu, e1 ▸ e2⟩
      · have hlen : (d :: rest).length ≤ n := by
          simp only [List.length_cons] at hl ⊢
          omega
        obtain ⟨e1, e2⟩ := ih (d :: rest) hlen hrest
        rw [camelCase_cons_ne c d rest hc, hyphensToCamel_cons_ne c (d :: rest) hc, e1]
        refine ⟨rfl, ?_⟩
        simp only [List.mem_cons, not_or]
        exact ⟨Ne.symm hc, e1 ▸ e2⟩

theorem split_head_startsLower (rest hd : Str) (tl : List Str)
    (hs : split '-' rest = hd :: tl) (h : startsLower hd = true) :
    ∃ d r, rest = d :: r ∧ isLowerAZ d = true := by
  cases rest with
  | nil =>
    simp only [split, List.cons.injEq] at hs
    rw [← hs.1] at h
    exact absurd h (by decide)
  | cons e r =>
    by_cases he : e = '-'
    · simp only [split, he, if_true, List.cons.injEq] at hs
      rw [← hs.1] at h
      exact absurd h (by decide)
    · refine ⟨e, r, rfl, ?_⟩
      simp only [split, he, if_false] at hs
      cases hsr : split '-' r with
      | nil => exact absurd hsr (split_ne_nil '-' r)
      | cons x xs =>
        rw [hsr] at hs
        simp only [List.cons.injEq] at hs
        rw [← hs.1] at h
        exact h

theorem hyphensLed_of_split (name : Str)
    (h : (split '-' name).tail.all startsLower = true) : hyphensLed name = true := by
  induction name with
  | nil => rfl
  | cons c rest ih =>
    by_cases hc : c = '-'
    · subst hc
      simp only [split, if_true, List.tail_cons] at h
      cases hsr : split '-' rest with
      | nil => exact absurd hsr (split_ne_nil '-' rest)
      | cons hd tl =>
        rw [hsr] at h
        simp only [List.all_cons, Bool.and_eq_true] at h
        obtain ⟨d, r, hr, hd'⟩ := split_head_startsLower rest hd tl hsr h.1
        have hrest : hyphensLed rest = true := ih (by rw [hsr]; exact h.2)
        subst hr
        simp [hyphensLed, hd', hrest]
    · simp only [split, hc, if_false] at h
      cases hsr : split '-' rest with
      | nil => exact absurd hsr (split_ne_nil '-' rest)
      | cons hd tl =>
        rw [hsr] at h
        simp only [List.tail_cons] at h
        have hrest : hyphensLed rest = true := ih (by rw [hsr]; exact h)
        cases rest with
        | nil => simp [hyphensLed, hc]
        | cons d r => simp [hyphensLed, hc, hrest]

theorem camelCase_of_kebabLetters (name : Str) (h : isKebabLetters name = true) :
    camelCase name = hyphensToCamel false name ∧ '-' ∉ hyphensToCamel false name := by
  have h2 : (split '-' name).tail.all startsLower = true := by
    unfold isKebabLetters at h
    simp only [Bool.and_eq_true] at h
    exact h.2
  obtain ⟨e1, e2⟩ := camelCase_of_hyphensLed name.length name (Nat.le_refl _)
    (hyphensLed_of_split name h2)
  exact ⟨e1, e1 ▸ e2⟩

theorem attrStep_key (attrs : JsObject PropValue) (attr : Str × Str) :
    ∃ key v, attrStep attrs attr = objSet attrs key v := by
  unfold attrStep
  split
  · exact ⟨_, _, rfl⟩
  · exact ⟨_, _, rfl⟩

theorem objGet_attrStep_isSome (attrs : JsObject PropValue) (attr : Str × Str) (k : Str)
    (h : (objGet attrs k).isSome = true) : (objGet (attrStep attrs attr) k).isSome = true := by
  obtain ⟨key, v, hv⟩ := attrStep_key attrs attr
  rw [hv]
  by_cases hp : key = "__proto__".toList
  · rw [hp, objSet_proto]
    exact h
  · rw [objGet_objSet _ _ _ _ hp]
    by_cases hk : key = k
    · simp [hk]
    · simpa [hk] using h

theorem objGet_foldl_attrStep_isSome (as : List (Str × Str)) (attrs : JsObject PropValue)
    (k : Str) (h : (objGet attrs k).isSome = true) :
    (objGet (as.foldl attrStep attrs) k).isSome = true := by
  induction as generalizing attrs with
  | nil => exact h
  | cons a rest ih => exact ih _ (objGet_attrStep_isSome attrs a k h)

theorem kebab_head (name : Str) (h : isKebab name = true) :
    ∃ c rest, name = c :: rest ∧ c ≠ '-' ∧ (isLowerAZ c || c.isDigit) = true := by
  cases name with
  | nil => exact absurd h (by decide)
  | cons c rest =>
    by_cases hc : c = '-'
    · subst hc
      simp [isKebab, split] at h
    · refine ⟨c, rest, rfl, hc, ?_⟩
      unfold isKebab at h
      simp only [split, hc, if_false] at h
      cases hsr : split '-' rest with
      | nil => exact absurd hsr (split_ne_nil '-' rest)
      | cons hd tl =>
        rw [hsr] at h
        simp only [List.all_cons, Bool.and_eq_true] at h
        exact h.1.2.1

theorem camelCase_kebab_ne_proto (name : Str) (h : isKebab name = true) :
    camelCase name ≠ "__proto__".toList := by
  obtain ⟨c, rest, rfl, hc, hcl⟩ := kebab_head name h
  have hu : c ≠ '_' := by
    intro e
    rw [e] at hcl
    exact absurd hcl (by decide)
  intro heq
  cases rest with
  | nil =>
    simp only [camelCase, String.toList, List.cons.injEq] at heq
    exact hu heq.1
  | cons d r =>
    rw [camelCase_cons_ne c d r hc] at heq
    simp only [String.toList, List.cons.injEq] at heq
    exact hu heq.1

theorem objGet_foldl_attrStep_mem (as : List (Str × Str)) (attrs : JsObject PropValue)
    (name value : Str) (hne : name ≠ "style".toList)
    (hp : camelCase name ≠ "__proto__".toList) (hm : (name, value) ∈ as) :
    (objGet (as.foldl attrStep attrs) (camelCase name)).isSome = true := by
  induction as generalizing attrs with
  | nil => simp at hm
  | cons a rest ih =>
    rcases List.mem_cons.mp hm with e | hr
    · subst e
      rw [List.foldl_cons]
      apply objGet_foldl_attrStep_isSome
      simp only [attrStep, hne, if_false]
      rw [objGet_objSet _ _ _ _ hp]
      simp
    · rw [List.foldl_cons]
      exact ih _ hr

/-- C7, as stated, fails: `data-2x` is kebab-case (runs `data` and `2x`), yet the
stored property name is `data-2x`, which keeps its hyphen and differs from the
name with the hyphen removed. -/
theorem kebab_hyphen_before_digit :
    isKebab "data-2x".toList = true
    ∧ "data-2x".toList ≠ "style".toList
    ∧ parseElementsRecursive id
          (Element.mk "svg".toList []
            [Element.mk "path".toList [("data-2x".toList, "on".toList)] []])
        = [ElementNode.mk "path".toList [("data-2x".toList, PropValue.str "on".toList)] []]
    ∧ '-' ∈ "data-2x".toList
    ∧ hyphensToCamel false "data-2x".toList = "data2x".toList
    ∧ "data-2x".toList ≠ "data2x".toList := by
  refine ⟨by decide, by decide, by rfl, by decide, by decide, by decide⟩

/-- C7, amended: for every kebab-case attribute name other than `style` in which
each run after a hyphen starts with a lower-case letter, the property name
stored for the attribute is the name with every hyphen removed and each letter
that followed a hyphen upper-cased; it contains no hyphen, and the parsed node
has a property of that name. -/
theorem kebab_letters_camelCase (name : Str) (h : isKebabLetters name = true)
    (hne : name ≠ "style".toList) :
    (∀ (attrs : JsObject PropValue) (value : Str),
        attrStep attrs (name, value)
          = objSet attrs (hyphensToCamel false name) (PropValue.str value))
    ∧ '-' ∉ hyphensToCamel false name
    ∧ (∀ (lower : Str → Str) (tag value : Str) (attributes : List (Str × Str))
        (children : List Element), (name, value) ∈ attributes →
        (objGet (parseChild lower (Element.mk tag attributes children)).props
          (hyphensToCamel false name)).isSome = true)
    ∧ camelCase "stroke-width".toList = "strokeWidth".toList := by
  obtain ⟨e1, e2⟩ := camelCase_of_kebabLetters name h
  refine ⟨?_, e2, ?_, by decide⟩
  · intro attrs value
    simp only [attrStep, hne, if_false, e1]
  · intro lower tag value attributes children hm
    rw [← e1]
    simp only [parseChild, ElementNode.props]
    have hk : isKebab name = true := by
      unfold isKebabLetters at h
      simp only [Bool.and_eq_true] at h
      exact h.1
    exact objGet_foldl_attrStep_mem attributes [] name value hne
      (camelCase_kebab_ne_proto name hk) hm

/-- The amended C7 at `stroke-width`: the stored name is `strokeWidth`. -/
theorem kebab_letters_camelCase_stroke_width :
    hyphensToCamel false "stroke-width".toList = "strokeWidth".toList
    ∧ ((∀ (attrs : JsObject PropValue) (value : Str),
        attrStep attrs ("stroke-width".toList, value)
          = objSet attrs (hyphensToCamel false "stroke-width".toList) (PropValue.str value))
      ∧ '-' ∉ hyphensToCamel false "stroke-width".toList
      ∧ (∀ (lower : Str → Str) (tag value : Str) (attributes : List (Str × Str))
          (children : List Element), ("stroke-width".toList, value) ∈ attributes →
          (objGet (parseChild lower (Element.mk tag attributes children)).props
            (hyphensToCamel false "stroke-width".toList)).isSome = true)
      ∧ camelCase "stroke-width".toList = "strokeWidth".toList) :=
  ⟨by decide, kebab_letters_camelCase "stroke-width".toList (by decide) (by decide)⟩

/-! ### Working viewBox values -/

/-- Four fields joined by single spaces are read back in order. -/
theorem viewBoxOfString_single_spaces (a b c d : Str)
    (ha : ' ' ∉ a) (hb : ' ' ∉ b) (hc : ' ' ∉ c) (hd : ' ' ∉ d) :
    viewBoxOfString (join " ".toList [a, b, c, d])
      = { minX := some (toNumber a), minY := some (toNumber b),
          width := some (toNumber c), height := some (toNumber d) } := by
  have hj : " ".toList = [' '] := rfl
  have hs : split ' ' (join [' '] [a, b, c, d]) = [a, b, c, d] := by
    apply split_join ' ' _ (by simp)
    intro p hp
    simp only [List.mem_cons, List.mem_singleton, List.not_mem_nil, or_false] at hp
    rcases hp with rfl | rfl | rfl | rfl <;> assumption
  unfold viewBoxOfString
  rw [hj, hs]
  rfl

/-- C8: the code at `viewBox="0  0 24 24"` (two spaces after the first number).
The four numbers of the attribute are 0, 0, 24, 24, but `split(' ')` yields the
five pieces `0`, empty, `0`, `24`, `24`, and `Number('')` is 0, so the working
values are minX 0, minY 0, width 0, height 24. -/
theorem viewBox_two_spaces :
    (parseSvg (hostOf svgDoubleSpace)
        (sessionOf "<svg viewBox=\"0  0 24 24\"><path d=\"M1 1h2v2\"/></svg>".toList)).viewBoxValues
      = some { minX := some (JsNum.int 0), minY := some (JsNum.int 0),
               width := some (JsNum.int 0), height := some (JsNum.int 24) }
    ∧ ((parseSvg (hostOf svgDoubleSpace)
          (sessionOf "<svg viewBox=\"0  0 24 24\"><path d=\"M1 1h2v2\"/></svg>".toList)).parsedData.map
            ParsedData.originalViewBox) = some "0  0 24 24".toList
    ∧ split ' ' "0  0 24 24".toList = ["0".toList, [], "0".toList, "24".toList, "24".toList]
    ∧ (whitespaceFields [] "0  0 24 24".toList).map toNumber
        = [JsNum.int 0, JsNum.int 0, JsNum.int 24, JsNum.int 24] := by
  refine ⟨by decide, by rfl, by decide, by decide⟩

/-! ### Reading generated text back -/

theorem append_sep_inj (c : Char) :
    ∀ (a a' r r' : Str), c ∉ a → c ∉ a' → a ++ c :: r = a' ++ c :: r' → a = a' ∧ r = r' := by
  intro a
  induction a with
  | nil =>
    intro a' r r' _ ha' h
    cases a' with
    | nil => simpa using h
    | cons x xs =>
      simp only [List.nil_append, List.cons_append, List.cons.injEq] at h
      exact absurd h.1 (fun e => ha' (by simp [e]))
  | cons y ys ih =>
    intro a' r r' ha ha' h
    cases a' with
    | nil =>
      simp only [List.nil_append, List.cons_append, List.cons.injEq] at h
      exact absurd h.1.symm (fun e => ha (by simp [e]))
    | cons x xs =>
      simp only [List.cons_append, List.cons.injEq] at h
      obtain ⟨e1, e2⟩ := ih xs r r' (fun e => ha (by simp [e])) (fun e => ha' (by simp [e])) h.2
      exact ⟨by rw [h.1, e1], e2⟩

theorem join_cons_append (sep x : Str) (xs : List Str) (R : Str) :
    join sep (x :: xs) ++ R
      = x ++ (match xs with
              | [] => R
              | y :: ys => sep ++ (join sep (y :: ys) ++ R)) := by
  cases xs with
  | nil => simp [join]
  | cons y ys => simp [join, List.append_assoc]

theorem map_eq_mapFrom {α : Type} (g : α → Str) (l : List α) (k : Nat) :
    l.map g = mapFrom (fun _ => g) k l := by
  induction l generalizing k with
  | nil => rfl
  | cons a as ih => simp [mapFrom, ← ih (k + 1)]

theorem renderElements_eq_mapFrom (depth : Nat) (nodes : List ElementNode) (k : Nat) :
    renderElements depth k nodes = mapFrom (renderElement depth) k nodes := by
  induction nodes generalizing k with
  | nil => simp [renderElements, mapFrom]
  | cons n ns ih => simp [renderElements, mapFrom, ih]

/-- Items printed one after the other with a separator can be read back, when
each item can be read back on its own and what follows the list neither starts
like an item nor like a separator and an item. -/
theorem join_mapFrom_inj {α : Type} (f : Nat → α → Str) (sep : Str) (Good : α → Prop) :
    ∀ (as : List α) (k : Nat) (as' : List α) (R R' : Str),
      (∀ a ∈ as, ∀ (i : Nat) (a' : α) (X X' : Str), Good a' →
        f i a ++ X = f i a' ++ X' → a = a' ∧ X = X') →
      (∀ a ∈ as, Good a) → (∀ a ∈ as', Good a) →
      (∀ (i : Nat) (a : α) (X : Str), Good a → R ≠ f i a ++ X) →
      (∀ (i : Nat) (a : α) (X : Str), Good a → R ≠ sep ++ (f i a ++ X)) →
      (∀ (i : Nat) (a : α) (X : Str), Good a → R' ≠ f i a ++ X) →
      (∀ (i : Nat) (a : α) (X : Str), Good a → R' ≠ sep ++ (f i a ++ X)) →
      join sep (mapFrom f k as) ++ R = join sep (mapFrom f k as') ++ R' →
      as = as' ∧ R = R' := by
  intro as
  induction as with
  | nil =>
    intro k as' R R' _ _ hg' h1 _ _ _ h
    cases as' with
    | nil => exact ⟨rfl, by simpa [mapFrom, join] using h⟩
    | cons a' rest' =>
      exfalso
      simp only [mapFrom, join, List.nil_append] at h
      rw [join_cons_append] at h
      exact h1 k a' _ (hg' a' (by simp)) h
  | cons a rest ih =>
    intro k as' R R' hD hg hg' h1 h2 h1' h2' h
    cases as' with
    | nil =>
      exfalso
      simp only [mapFrom, join, List.nil_append] at h
      rw [join_cons_append] at h
      exact h1' k a _ (hg a (by simp)) h.symm
    | cons a' rest' =>
      simp only [mapFrom] at h
      rw [join_cons_append, join_cons_append] at h
      obtain ⟨e, hT⟩ := hD a (by simp) k a' _ _ (hg' a' (by simp)) h
      subst e
      have hDr : ∀ b ∈ rest, ∀ (i : Nat) (b' : α) (X X' : Str), Good b' →
          f i b ++ X = f i b' ++ X' → b = b' ∧ X = X' :=
        fun b hb => hD b (by simp [hb])
      have hgr : ∀ b ∈ rest, Good b := fun b hb => hg b (by simp [hb])
      have hgr' : ∀ b ∈ rest', Good b := fun b hb => hg' b (by simp [hb])
      cases rest with
      | nil =>
        cases rest' with
        | nil => exact ⟨rfl, by simpa [mapFrom] using hT⟩
        | cons b' bs' =>
          exfalso
          simp only [mapFrom] at hT
          rw [join_cons_append] at hT
          exact h2 (k + 1) b' _ (hgr' b' (by simp)) hT
      | cons b bs =>
        cases rest' with
        | nil =>
          exfalso
          simp only [mapFrom] at hT
          rw [join_cons_append] at hT
          exact h2' (k + 1) b _ (hgr b (by simp)) hT.symm
        | cons b' bs' =>
          have hT' : join sep (mapFrom f (k + 1) (b :: bs)) ++ R
              = join sep (mapFrom f (k + 1) (b' :: bs')) ++ R' := by
            simp only [mapFrom] at hT ⊢
            exact List.append_cancel_left hT
          obtain ⟨e1, e2⟩ := ih (k + 1) (b' :: bs') R R' hDr hgr hgr' h1 h2 h1' h2' hT'
          exact ⟨by rw [e1], e2⟩

theorem styleEntryString_append (e : Str × Str) (X : Str) :
    styleEntryString e ++ X = e.1 ++ ':' :: ' ' :: '\'' :: (e.2 ++ '\'' :: X) := by
  simp [styleEntryString]

theorem styleEntry_inj (e e' : Str × Str) (X X' : Str)
    (h : CleanStyleEntry e) (h' : CleanStyleEntry e')
    (heq : styleEntryString e ++ X = styleEntryString e' ++ X') : e = e' ∧ X = X' := by
  rw [styleEntryString_append, styleEntryString_append] at heq
  obtain ⟨e1, r1⟩ := append_sep_inj ':' _ _ _ _ h.1 h'.1 heq
  simp only [List.cons.injEq, true_and] at r1
  obtain ⟨e2, r2⟩ := append_sep_inj '\'' _ _ _ _ h.2.2 h'.2.2 r1
  exact ⟨Prod.ext e1 e2, r2⟩

theorem styleEnd_ne_entry (a : Str × Str) (X Y : Str) (h : CleanStyleEntry a) :
    ' ' :: '}' :: '}' :: X ≠ styleEntryString a ++ Y := by
  rw [styleEntryString_append]
  intro heq
  rcases a with ⟨k, v⟩
  cases k with
  | nil =>
    simp only [List.nil_append, List.cons.injEq] at heq
    exact absurd heq.1 (by decide)
  | cons c cs =>
    simp only [List.cons_append, List.cons.injEq] at heq
    exact h.2.1 (by simp [← heq.1])

/-- The text after the `=` of a printed property, followed by `X`. -/
theorem propEntryString_append (e : Str × PropValue) (X : Str) (h : CleanProp e) :
    propEntryString e ++ X
      = e.1 ++ '=' ::
          (match e.2 with
           | PropValue.str v => '\"' :: (v ++ '\"' :: X)
           | PropValue.style m =>
             '\x7b' :: '\x7b' :: ' ' ::
               (join ", ".toList (mapFrom (fun _ => styleEntryString) 0 m)
                 ++ ' ' :: '\x7d' :: '\x7d' :: X)) := by
  rcases e with ⟨k, v⟩
  cases v with
  | str v => simp [propEntryString]
  | style m =>
    have hk : k = "style".toList := h.2.1
    subst hk
    simp [propEntryString, map_eq_mapFrom styleEntryString m 0]

theorem propEntry_inj (e e' : Str × PropValue) (X X' : Str)
    (h : CleanProp e) (h' : CleanProp e')
    (heq : propEntryString e ++ X = propEntryString e' ++ X') : e = e' ∧ X = X' := by
  rw [propEntryString_append e X h, propEntryString_append e' X' h'] at heq
  obtain ⟨e1, r1⟩ := append_sep_inj '=' _ _ _ _ h.1.2.2.1 h'.1.2.2.1 heq
  rcases e with ⟨k, v⟩
  rcases e' with ⟨k', v'⟩
  simp only at e1 r1
  subst e1
  cases v with
  | str v =>
    cases v' with
    | str v' =>
      simp only [List.cons.injEq, true_and] at r1
      obtain ⟨e2, r2⟩ := append_sep_inj '\"' _ _ _ _ h.2 h'.2 r1
      exact ⟨by rw [e2], r2⟩
    | style m' =>
      simp only [List.cons.injEq] at r1
      exact absurd r1.1 (by decide)
  | style m =>
    cases v' with
    | str v' =>
      simp only [List.cons.injEq] at r1
      exact absurd r1.1 (by decide)
    | style m' =>
      simp only [List.cons.injEq, true_and] at r1
      have hsep : ∀ (i : Nat) (a : Str × Str) (Y Z : Str), CleanStyleEntry a →
          ' ' :: '\x7d' :: '\x7d' :: Y ≠ ", ".toList ++ (styleEntryString a ++ Z) := by
        intro i a Y Z _ hc
        simp only [String.toList, List.cons_append, List.cons.injEq] at hc
        exact absurd hc.1 (by decide)
      obtain ⟨e2, r2⟩ := join_mapFrom_inj (fun _ => styleEntryString) ", ".toList
        CleanStyleEntry m 0 m' _ _
        (fun a ha i a' Y Y' hg hq => styleEntry_inj a a' Y Y' (h.2.2 a ha) hg hq)
        h.2.2 h'.2.2
        (fun i a Y hg => styleEnd_ne_entry a X Y hg) (fun i a Y hg => hsep i a X Y hg)
        (fun i a Y hg => styleEnd_ne_entry a X' Y hg) (fun i a Y hg => hsep i a X' Y hg)
        r1
      simp only [List.cons.injEq, true_and] at r2
      exact ⟨by rw [e2], r2⟩

theorem cleanNodes_iff (ns : List ElementNode) : CleanNodes ns ↔ ∀ n ∈ ns, CleanNode n := by
  induction ns with
  | nil => simp [CleanNodes]
  | cons n rest ih => simp [CleanNodes, ih]

theorem renderElement_append (d i : Nat) (tag : Str) (props : JsObject PropValue)
    (children : List ElementNode) (X : Str) :
    renderElement d i (ElementNode.mk tag props children) ++ X
      = indentOf d ++ '<' :: (tag ++ ' ' :: ("key=\x7b".toList ++ (natToStr i ++ '\x7d' :: ' ' ::
          (join " ".toList (mapFrom (fun _ => propEntryString) 0 props)
            ++ tagEndText d tag children X)))) := by
  cases children with
  | nil =>
    simp [renderElement, propsString, map_eq_mapFrom propEntryString props 0, List.append_assoc,
      tagEndText]
  | cons c cs =>
    simp [renderElement, propsString, map_eq_mapFrom propEntryString props 0,
      renderElements_eq_mapFrom, List.append_assoc, tagEndText]

theorem renderElement_head (d i : Nat) (a : ElementNode) (Z : Str) :
    ∃ W, renderElement d i a ++ Z = indentOf d ++ '<' :: W := by
  cases a with
  | mk tag props children => exact ⟨_, renderElement_append d i tag props children Z⟩

theorem indentOf_succ (d : Nat) : indentOf (d + 1) = indentOf d ++ [' ', ' '] := by
  unfold indentOf
  rw [Nat.mul_add, List.replicate_add]
  rfl

theorem indentOf_succ_cons (d : Nat) : indentOf (d + 1) = ' ' :: ' ' :: indentOf d := by
  simp [indentOf, Nat.mul_add, List.replicate_succ]

theorem closing_ne_elem (d i : Nat) (a : ElementNode) (W Z : Str) :
    '\n' :: (indentOf d ++ '<' :: '/' :: W) ≠ renderElement (d + 1) i a ++ Z := by
  obtain ⟨V, hV⟩ := renderElement_head (d + 1) i a Z
  rw [hV, indentOf_succ_cons]
  intro h
  simp only [List.cons_append, List.cons.injEq] at h
  exact absurd h.1 (by decide)

theorem closing_ne_sep_elem (d i : Nat) (a : ElementNode) (W Z : Str) :
    '\n' :: (indentOf d ++ '<' :: '/' :: W) ≠ "\n".toList ++ (renderElement (d + 1) i a ++ Z) := by
  obtain ⟨V, hV⟩ := renderElement_head (d + 1) i a Z
  rw [hV, indentOf_succ]
  intro h
  simp only [String.toList, List.cons_append, List.nil_append, List.cons.injEq, true_and,
    List.append_assoc] at h
  have h2 := List.append_cancel_left h
  simp only [List.cons_append, List.nil_append, List.cons.injEq] at h2
  exact absurd h2.1 (by decide)

theorem tagEnd_ne_entry (E : Str) (hE : IsTagEnd E) (a : Str × PropValue) (Z : Str)
    (h : CleanProp a) : E ≠ propEntryString a ++ Z := by
  rw [propEntryString_append a Z h]
  obtain ⟨hne, hsp, -, hgt, -⟩ := h.1
  rcases a with ⟨k, v⟩
  cases k with
  | nil => exact absurd rfl hne
  | cons c cs =>
    intro heq
    rcases hE with ⟨X, rfl⟩ | ⟨Y, rfl⟩
    · simp only [List.cons_append, List.cons.injEq] at heq
      exact hsp (by simp [← heq.1])
    · simp only [List.cons_append, List.cons.injEq] at heq
      exact hgt (by simp [← heq.1])

theorem tagEnd_ne_sep_entry (E : Str) (hE : IsTagEnd E) (a : Str × PropValue) (Z : Str)
    (h : CleanProp a) : E ≠ " ".toList ++ (propEntryString a ++ Z) := by
  rw [propEntryString_append a Z h]
  obtain ⟨hne, -, -, -, hsl⟩ := h.1
  rcases a with ⟨k, v⟩
  cases k with
  | nil => exact absurd rfl hne
  | cons c cs =>
    intro heq
    rcases hE with ⟨X, rfl⟩ | ⟨Y, rfl⟩
    · simp only [String.toList, List.cons_append, List.nil_append, List.cons.injEq,
        true_and] at heq
      exact hsl (by simp [← heq.1])
    · simp only [String.toList, List.cons_append, List.nil_append, List.cons.injEq] at heq
      exact absurd heq.1 (by decide)

theorem sizeOf_child_lt (tag : Str) (props : JsObject PropValue) (children : List ElementNode)
    (a : ElementNode) (ha : a ∈ children) :
    sizeOf a < sizeOf (ElementNode.mk tag props children) := by
  have h1 := List.sizeOf_lt_of_mem ha
  simp only [ElementNode.mk.sizeOf_spec]
  omega

theorem renderElement_inj_aux (N : Nat) :
    ∀ (n : ElementNode), sizeOf n ≤ N → ∀ (d i : Nat) (n' : ElementNode) (X X' : Str),
      CleanNode n → CleanNode n' →
      renderElement d i n ++ X = renderElement d i n' ++ X' → n = n' ∧ X = X' := by
  induction N with
  | zero =>
    intro n hs
    cases n with
    | mk tag props children =>
      simp only [ElementNode.mk.sizeOf_spec] at hs
      omega
  | succ N ih =>
    intro n hs d i n' X X' hc hc' heq
    cases n with
    | mk tag props children =>
    cases n' with
    | mk tag' props' children' =>
    rw [renderElement_append, renderElement_append] at heq
    have h1 := List.append_cancel_left heq
    simp only [List.cons.injEq, true_and] at h1
    simp only [CleanNode] at hc hc'
    obtain ⟨etag, h2⟩ := append_sep_inj ' ' _ _ _ _ hc.1 hc'.1 h1
    subst etag
    have h3 := List.append_cancel_left (List.append_cancel_left h2)
    simp only [List.cons.injEq, true_and] at h3
    have hE : IsTagEnd (tagEndText d tag children X) := by
      cases children with
      | nil => exact Or.inl ⟨_, rfl⟩
      | cons c cs => exact Or.inr ⟨_, rfl⟩
    have hE' : IsTagEnd (tagEndText d tag children' X') := by
      cases children' with
      | nil => exact Or.inl ⟨_, rfl⟩
      | cons c cs => exact Or.inr ⟨_, rfl⟩
    obtain ⟨eprops, h4⟩ := join_mapFrom_inj (fun _ => propEntryString) " ".toList CleanProp
      props 0 props' _ _
      (fun a ha j a' Y Y' hg hq => propEntry_inj a a' Y Y' (hc.2.1 a ha) hg hq)
      hc.2.1 hc'.2.1
      (fun j a Y hg => tagEnd_ne_entry _ hE a Y hg)
      (fun j a Y hg => tagEnd_ne_sep_entry _ hE a Y hg)
      (fun j a Y hg => tagEnd_ne_entry _ hE' a Y hg)
      (fun j a Y hg => tagEnd_ne_sep_entry _ hE' a Y hg)
      h3
    subst eprops
    cases children with
    | nil =>
      cases children' with
      | nil =>
        simp only [tagEndText, List.cons.injEq, true_and] at h4
        exact ⟨rfl, h4⟩
      | cons c' cs' =>
        simp only [tagEndText, List.cons.injEq] at h4
        exact absurd h4.1 (by decide)
    | cons c cs =>
      cases children' with
      | nil =>
        simp only [tagEndText, List.cons.injEq] at h4
        exact absurd h4.1 (by decide)
      | cons c' cs' =>
        simp only [tagEndText, List.cons.injEq, true_and] at h4
        have hkids : ∀ a ∈ c :: cs, ∀ (j : Nat) (a' : ElementNode) (Y Y' : Str), CleanNode a' →
            renderElement (d + 1) j a ++ Y = renderElement (d + 1) j a' ++ Y' →
            a = a' ∧ Y = Y' := by
          intro a ha j a' Y Y' hg hq
          have hlt := sizeOf_child_lt tag props (c :: cs) a ha
          exact ih a (by omega) (d + 1) j a' Y Y' ((cleanNodes_iff _).mp hc.2.2 a ha) hg hq
        obtain ⟨ekids, h5⟩ := join_mapFrom_inj (renderElement (d + 1)) "\n".toList CleanNode
          (c :: cs) 0 (c' :: cs') _ _ hkids
          ((cleanNodes_iff _).mp hc.2.2) ((cleanNodes_iff _).mp hc'.2.2)
          (fun j a Y _ => closing_ne_elem d j a _ Y)
          (fun j a Y _ => closing_ne_sep_elem d j a _ Y)
          (fun j a Y _ => closing_ne_elem d j a _ Y)
          (fun j a Y _ => closing_ne_sep_elem d j a _ Y)
          h4
        simp only [List.cons.injEq, true_and] at h5
        have h6 := List.append_cancel_left h5
        simp only [List.cons.injEq, true_and] at h6
        have h7 := List.append_cancel_left h6
        simp only [List.cons.injEq, true_and] at h7
        exact ⟨by rw [ekids], h7⟩

/-- One printed element, followed by anything, can be read back. -/
theorem renderElement_inj (d i : Nat) (n n' : ElementNode) (X X' : Str)
    (hc : CleanNode n) (hc' : CleanNode n')
    (heq : renderElement d i n ++ X = renderElement d i n' ++ X') : n = n' ∧ X = X' :=
  renderElement_inj_aux (sizeOf n) n (Nat.le_refl _) d i n' X X' hc hc' heq

/-- The generated text of clean nodes determines the nodes. -/
theorem generateJsxRecursive_inj (depth : Nat) (nodes nodes' : List ElementNode)
    (hc : CleanNodes nodes) (hc' : CleanNodes nodes')
    (heq : generateJsxRecursive nodes depth = generateJsxRecursive nodes' depth) :
    nodes = nodes' := by
  unfold generateJsxRecursive at heq
  rw [renderElements_eq_mapFrom, renderElements_eq_mapFrom] at heq
  have hnil : ∀ (j : Nat) (a : ElementNode) (Y : Str), CleanNode a →
      ([] : Str) ≠ renderElement depth j a ++ Y := by
    intro j a Y _ h
    obtain ⟨W, hW⟩ := renderElement_head depth j a Y
    rw [hW] at h
    cases hd : indentOf depth <;> simp [hd] at h
  have hnil2 : ∀ (j : Nat) (a : ElementNode) (Y : Str), CleanNode a →
      ([] : Str) ≠ "\n".toList ++ (renderElement depth j a ++ Y) := by
    intro j a Y _ h
    simp [String.toList] at h
  have heq' : join "\n".toList (mapFrom (renderElement depth) 0 nodes) ++ []
      = join "\n".toList (mapFrom (renderElement depth) 0 nodes') ++ [] := by
    simpa using heq
  exact (join_mapFrom_inj (renderElement depth) "\n".toList CleanNode nodes 0 nodes' [] []
    (fun a ha j a' Y Y' hg hq =>
      renderElement_inj depth j a a' Y Y' ((cleanNodes_iff _).mp hc a ha) hg hq)
    ((cleanNodes_iff _).mp hc) ((cleanNodes_iff _).mp hc') hnil hnil2 hnil hnil2 heq').1

theorem handleError_componentName (s : Session) (msg : Str) :
    (handleError s msg).componentName = s.componentName := by
  unfold handleError
  split <;> rfl

theorem parseSvg_componentName (host : Host) (s : Session) :
    (parseSvg host s).componentName = s.componentName := by
  unfold parseSvg
  simp only
  split
  · simp [handleError_componentName]
  · split
    · simp [handleError_componentName]
    · simp [handleError_componentName]
    · split
      · simp [handleError_componentName]
      · simp [handleError_componentName]

/-- C9, as stated, fails: the two documents `textQuoted` and `textTwo` both have
`viewBox="0 0 48 48"` and parse successfully, to one node and to two nodes; their
generated component code is the same text, so no way of re-parsing that text
gives back both trees.  The `d` value of the first holds a double quote, which
the generator prints unescaped. -/
theorem round_trip_unescaped_quote :
    ((parseSvg hostSamples (sessionOf textQuoted)).parsedData.map ParsedData.elements)
      = some nodesQuoted
    ∧ ((parseSvg hostSamples (sessionOf textTwo)).parsedData.map ParsedData.elements)
      = some nodesTwo
    ∧ svgQuoted.getAttribute "viewBox".toList = some "0 0 48 48".toList
    ∧ svgTwo.getAttribute "viewBox".toList = some "0 0 48 48".toList
    ∧ generateComponentCode hostSamples (parseSvg hostSamples (sessionOf textQuoted))
      = generateComponentCode hostSamples (parseSvg hostSamples (sessionOf textTwo))
    ∧ generateJsxRecursive nodesQuoted = generateJsxRecursive nodesTwo
    ∧ nodesQuoted.length = 1 ∧ nodesTwo.length = 2
    ∧ ¬ ∃ reparse : Str → List ElementNode,
        reparse (generateJsxRecursive nodesQuoted) = nodesQuoted
        ∧ reparse (generateJsxRecursive nodesTwo) = nodesTwo := by
  have hgen : generateJsxRecursive nodesQuoted = generateJsxRecursive nodesTwo := by decide
  refine ⟨by rfl, by rfl, by decide, by decide, ?_, hgen, rfl, rfl, ?_⟩
  · have e1 : parseSvg hostSamples (sessionOf textQuoted)
        = { sessionOf textQuoted with
            parsedData := some { elements := nodesQuoted, originalViewBox := "0 0 48 48".toList }
            viewBoxValues := some (viewBoxOfString "0 0 48 48".toList) } := by rfl
    have e2 : parseSvg hostSamples (sessionOf textTwo)
        = { sessionOf textTwo with
            parsedData := some { elements := nodesTwo, originalViewBox := "0 0 48 48".toList }
            viewBoxValues := some (viewBoxOfString "0 0 48 48".toList) } := by rfl
    rw [e1, e2]
    simp only [generateComponentCode, hgen]
    rfl
  · rintro ⟨reparse, hA, hB⟩
    rw [hgen, hB] at hA
    exact absurd (congrArg List.length hA) (by decide)

/-- C9, amended: take two documents with `viewBox="0 0 48 48"` that parse
successfully under the same component name, whose parsed trees are clean: no
space in a tag; property names non-empty and without space, `=`, `>`, `/`; no
double quote in a string value; style objects only under `style`, their names
without colon or leading space and their values without single quote.  If their
generated component code is the same text, their element trees are identical:
the generated code determines the tree, so re-parsing it recovers the tree. -/
theorem round_trip_clean (host : Host) (s s' : Session) (pd pd' : ParsedData)
    (h : (parseSvg host s).parsedData = some pd)
    (h' : (parseSvg host s').parsedData = some pd')
    (hv : ∀ svg, (host.parseFromString s.svgInput).svgElement = some svg →
      svg.getAttribute "viewBox".toList = some "0 0 48 48".toList)
    (hv' : ∀ svg, (host.parseFromString s'.svgInput).svgElement = some svg →
      svg.getAttribute "viewBox".toList = some "0 0 48 48".toList)
    (hname : s.componentName = s'.componentName)
    (hc : CleanNodes pd.elements) (hc' : CleanNodes pd'.elements)
    (hcode : generateComponentCode host (parseSvg host s)
      = generateComponentCode host (parseSvg host s')) :
    pd.elements = pd'.elements := by
  obtain ⟨svg, hsvg, -, -, -, -, hvb, hvals⟩ := parseSvg_success host s pd h
  obtain ⟨svg', hsvg', -, -, -, -, hvb', hvals'⟩ := parseSvg_success host s' pd' h'
  have hr : resolveViewBox host.printReal svg = "0 0 48 48".toList := by
    unfold resolveViewBox
    rw [hv svg hsvg]
    rfl
  have hr' : resolveViewBox host.printReal svg' = "0 0 48 48".toList := by
    unfold resolveViewBox
    rw [hv' svg' hsvg']
    rfl
  rw [hr] at hvals
  rw [hr'] at hvals'
  have hn := parseSvg_componentName host s
  have hn' := parseSvg_componentName host s'
  unfold generateComponentCode at hcode
  rw [h, h', hvals, hvals', hn, hn', hname] at hcode
  simp only [List.append_assoc, List.append_cancel_left_eq] at hcode
  exact generateJsxRecursive_inj 3 pd.elements pd'.elements hc hc'
    (List.append_cancel_right hcode)

theorem cleanNodes_nodesTwo : CleanNodes nodesTwo := by
  simp [nodesTwo, CleanNodes, CleanNode, CleanProp, CleanName]

theorem hostSamples_textTwo :
    (hostSamples.parseFromString (sessionOf textTwo).svgInput).svgElement = some svgTwo := by
  rfl

theorem hostSamples_textTwoNs :
    (hostSamples.parseFromString (sessionOf textTwoNs).svgInput).svgElement = some svgTwoNs := by
  rfl

/-- The amended C9 at the documents `textTwo` and `textTwoNs`, which differ in
their root attributes only: both parse, the trees are clean, the generated code
is the same, and so are the trees. -/
theorem round_trip_clean_sample :
    (parseSvg hostSamples (sessionOf textTwo)).parsedData
      = some { elements := nodesTwo, originalViewBox := "0 0 48 48".toList }
    ∧ (parseSvg hostSamples (sessionOf textTwoNs)).parsedData
      = some { elements := nodesTwo, originalViewBox := "0 0 48 48".toList }
    ∧ CleanNodes nodesTwo
    ∧ generateComponentCode hostSamples (parseSvg hostSamples (sessionOf textTwo))
      = generateComponentCode hostSamples (parseSvg hostSamples (sessionOf textTwoNs))
    ∧ ({ elements := nodesTwo, originalViewBox := "0 0 48 48".toList } : ParsedData).elements
      = ({ elements := nodesTwo, originalViewBox := "0 0 48 48".toList } : ParsedData).elements :=
  ⟨rfl, rfl, cleanNodes_nodesTwo, rfl,
    round_trip_clean hostSamples (sessionOf textTwo) (sessionOf textTwoNs)
      { elements := nodesTwo, originalViewBox := "0 0 48 48".toList }
      { elements := nodesTwo, originalViewBox := "0 0 48 48".toList }
      rfl rfl
      (fun svg hs => by
        rw [hostSamples_textTwo] at hs
        cases hs
        decide)
      (fun svg hs => by
        rw [hostSamples_textTwoNs] at hs
        cases hs
        decide)
      rfl cleanNodes_nodesTwo cleanNodes_nodesTwo rfl⟩

/-! ### Valid documents and the two parse outcomes -/

theorem elementsOf_head (root : Element) :
    ∃ rest, elementsOf root = root :: rest := by
  cases root with
  | mk t a c => exact ⟨elementsOfList c, by rw [elementsOf]⟩

theorem querySelector_root (name : Str) (root : Element)
    (h : localName root.tagName = name) : querySelector name root = some root := by
  obtain ⟨rest, hr⟩ := elementsOf_head root
  unfold querySelector
  rw [hr, List.find?_cons]
  simp [h]

theorem querySelector_eq_none (name : Str) (root : Element)
    (h : ∀ e ∈ elementsOf root, localName e.tagName ≠ name) : querySelector name root = none := by
  unfold querySelector
  rw [List.find?_eq_none]
  intro e he
  simpa using h e he

theorem elementsOf_no_children (root : Element) (h : root.children = []) :
    elementsOf root = [root] := by
  cases root with
  | mk t a c =>
    simp only [Element.children] at h
    subst h
    rw [elementsOf, elementsOfList]

theorem parseElementsRecursive_length (lower : Str → Str) (root : Element) :
    (parseElementsRecursive lower root).length = root.children.length := by
  simp [parseElementsRecursive, parseChildren_eq_map]

/-- The run of `parseSvg` on a non-blank text for which no `parsererror` element
is found and `svg` is the element found by `querySelector('svg')`. -/
theorem parseSvg_of_document (host : Host) (s : Session) (svg : Element)
    (hin : (trim s.svgInput).isEmpty = false)
    (hdoc : host.parseFromString s.svgInput = { svgElement := some svg, parseError := none }) :
    parseSvg host s
      = if (parseElementsRecursive host.lowerUnicode svg).length = 0 then
          handleError { handleError s [] with parsedData := none, viewBoxValues := none }
            "在SVG中没有找到有效的图形元素。".toList
        else
          { handleError s [] with
            viewBoxValues := some (viewBoxOfString (resolveViewBox host.printReal svg))
            parsedData := some
              { elements := parseElementsRecursive host.lowerUnicode svg
                originalViewBox := resolveViewBox host.printReal svg } } := by
  unfold parseSvg
  simp only [hin, hdoc, Bool.false_eq_true, if_false]

/-- C11, as stated, fails in its second half: the document
`<svg viewBox="0 0 24 24"><parsererror/></svg>` is well formed and its root `svg`
has one child element, but `doc.querySelector('parsererror')` finds that child,
so the parse ends in the invalid-format error with no tree and no viewBox. -/
theorem valid_document_named_parsererror :
    localName svgNamedParsererror.tagName = "svg".toList
    ∧ svgNamedParsererror.children.length = 1
    ∧ (querySelector "parsererror".toList svgNamedParsererror).isSome = true
    ∧ (parseSvg (hostOfRoot svgNamedParsererror)
        (sessionOf "<svg viewBox=\"0 0 24 24\"><parsererror/></svg>".toList)).parsedData.isSome
      = false
    ∧ (parseSvg (hostOfRoot svgNamedParsererror)
        (sessionOf "<svg viewBox=\"0 0 24 24\"><parsererror/></svg>".toList)).viewBoxValues.isSome
      = false
    ∧ (parseSvg (hostOfRoot svgNamedParsererror)
        (sessionOf "<svg viewBox=\"0 0 24 24\"><parsererror/></svg>".toList)).error
      = "无效的SVG格式。 undefined".toList := by
  refine ⟨by decide, rfl, by rfl, by rfl, by rfl, by decide⟩

/-- C11, amended: take a non-blank text whose document has the root `svg`.  If
the root has no child element, the parse ends with the no-drawable-elements
message, the console opened, and neither a parsed tree nor working viewBox
values.  If the root has at least one child element and no element of the
document is named `parsererror`, the parse ends with the parsed tree and the
working viewBox values set and with the empty error text. -/
theorem parseSvg_valid_document (host : Host) (innerText : Element → Str) (s : Session)
    (root : Element)
    (hin : (trim s.svgInput).isEmpty = false)
    (hdoc : host.parseFromString s.svgInput = documentOfRoot innerText root)
    (hroot : localName root.tagName = "svg".toList) :
    (root.children = [] →
      (parseSvg host s).error = "在SVG中没有找到有效的图形元素。".toList
      ∧ (parseSvg host s).isConsoleOpen = true
      ∧ (parseSvg host s).parsedData = none
      ∧ (parseSvg host s).viewBoxValues = none)
    ∧ (root.children ≠ [] →
      (∀ e ∈ elementsOf root, localName e.tagName ≠ "parsererror".toList) →
      (parseSvg host s).parsedData
          = some { elements := parseElementsRecursive host.lowerUnicode root
                   originalViewBox := resolveViewBox host.printReal root }
      ∧ (parseSvg host s).viewBoxValues
          = some (viewBoxOfString (resolveViewBox host.printReal root))
      ∧ (parseSvg host s).error = []
      ∧ (parseSvg host s).isConsoleOpen = s.isConsoleOpen) := by
  have hsvg : querySelector "svg".toList root = some root := querySelector_root _ root hroot
  have hmsg : ("在SVG中没有找到有效的图形元素。".toList.isEmpty) = false := by decide
  have hnil : (([] : Str).isEmpty) = true := rfl
  constructor
  · intro hc
    have hpe : querySelector "parsererror".toList root = none := by
      apply querySelector_eq_none
      intro e he
      rw [elementsOf_no_children root hc] at he
      simp only [List.mem_singleton] at he
      rw [he, hroot]
      decide
    have hd : host.parseFromString s.svgInput = { svgElement := some root, parseError := none } := by
      rw [hdoc]
      simp only [documentOfRoot, hsvg, hpe, Option.map_none']
    have hl : (parseElementsRecursive host.lowerUnicode root).length = 0 := by
      rw [parseElementsRecursive_length, hc]
      rfl
    rw [parseSvg_of_document host s root hin hd, if_pos hl]
    simp [handleError, hmsg, hnil]
  · intro hc hnone
    have hpe : querySelector "parsererror".toList root = none :=
      querySelector_eq_none _ root hnone
    have hd : host.parseFromString s.svgInput = { svgElement := some root, parseError := none } := by
      rw [hdoc]
      simp only [documentOfRoot, hsvg, hpe, Option.map_none']
    have hl : ¬ (parseElementsRecursive host.lowerUnicode root).length = 0 := by
      rw [parseElementsRecursive_length]
      intro h0
      exact hc (List.length_eq_zero.mp h0)
    rw [parseSvg_of_document host s root hin hd, if_neg hl]
    simp [handleError, hnil]

/-- The amended C11 at `<svg viewBox="0 0 24 24" width="24">no shapes</svg>`,
which ends in the no-drawable-elements error, and at
`<svg viewBox="0 0 24 24"><path d="M1 1h2v2"/></svg>`, which ends parsed. -/
theorem parseSvg_valid_document_samples :
    ((parseSvg (hostOfRoot svgNoChildren)
          (sessionOf "<svg viewBox=\"0 0 24 24\" width=\"24\">no shapes</svg>".toList)).error
        = "在SVG中没有找到有效的图形元素。".toList
      ∧ (parseSvg (hostOfRoot svgNoChildren)
          (sessionOf "<svg viewBox=\"0 0 24 24\" width=\"24\">no shapes</svg>".toList)).isConsoleOpen
        = true
      ∧ (parseSvg (hostOfRoot svgNoChildren)
          (sessionOf "<svg viewBox=\"0 0 24 24\" width=\"24\">no shapes</svg>".toList)).parsedData
        = none
      ∧ (parseSvg (hostOfRoot svgNoChildren)
          (sessionOf "<svg viewBox=\"0 0 24 24\" width=\"24\">no shapes</svg>".toList)).viewBoxValues
        = none)
    ∧ ((parseSvg (hostOfRoot svgSample)
          (sessionOf "<svg viewBox=\"0 0 24 24\"><path d=\"M1 1h2v2\"/></svg>".toList)).parsedData
        = some { elements := [ElementNode.mk "path".toList
                    [("d".toList, PropValue.str "M1 1h2v2".toList)] []]
                 originalViewBox := "0 0 24 24".toList }
      ∧ (parseSvg (hostOfRoot svgSample)
          (sessionOf "<svg viewBox=\"0 0 24 24\"><path d=\"M1 1h2v2\"/></svg>".toList)).viewBoxValues
        = some { minX := some (JsNum.int 0), minY := some (JsNum.int 0),
                 width := some (JsNum.int 24), height := some (JsNum.int 24) }
      ∧ (parseSvg (hostOfRoot svgSample)
          (sessionOf "<svg viewBox=\"0 0 24 24\"><path d=\"M1 1h2v2\"/></svg>".toList)).error = []
      ∧ (parseSvg (hostOfRoot svgSample)
          (sessionOf "<svg viewBox=\"0 0 24 24\"><path d=\"M1 1h2v2\"/></svg>".toList)).isConsoleOpen
        = false) :=
  ⟨(parseSvg_valid_document (hostOfRoot svgNoChildren) (fun _ => "undefined".toList)
      (sessionOf "<svg viewBox=\"0 0 24 24\" width=\"24\">no shapes</svg>".toList)
      svgNoChildren (by decide) rfl (by decide)).1 rfl,
   (parseSvg_valid_document (hostOfRoot svgSample) (fun _ => "undefined".toList)
      (sessionOf "<svg viewBox=\"0 0 24 24\"><path d=\"M1 1h2v2\"/></svg>".toList)
      svgSample (by decide) rfl (by decide)).2 (List.cons_ne_nil _ _) (by decide)⟩

/-! ### Edits and reset of the working viewBox -/

theorem resolveViewBox_ne_nil (printReal : Str → Str) (svg : Element) :
    resolveViewBox printReal svg ≠ [] := by
  unfold resolveViewBox
  split
  · simp
  · split <;> simp

theorem handleViewBoxChange_eq (s : Session) (name value : Str) :
    ∃ vb, handleViewBoxChange s name value = { s with viewBoxValues := vb } :=
  ⟨_, rfl⟩

theorem applyEdits_eq (edits : List (Str × Str)) :
    ∀ s : Session, ∃ vb, applyEdits s edits = { s with viewBoxValues := vb } := by
  induction edits with
  | nil => exact fun s => ⟨s.viewBoxValues, rfl⟩
  | cons e rest ih =>
    intro s
    obtain ⟨vb1, h1⟩ := handleViewBoxChange_eq s e.1 e.2
    obtain ⟨vb2, h2⟩ := ih (handleViewBoxChange s e.1 e.2)
    refine ⟨vb2, ?_⟩
    have : applyEdits s (e :: rest) = applyEdits (handleViewBoxChange s e.1 e.2) rest := rfl
    rw [this, h2, h1]

theorem resetViewBox_of_parsed (s : Session) (pd : ParsedData) (vb : Option ViewBoxValues)
    (hpd : s.parsedData = some pd) (hne : pd.originalViewBox ≠ []) :
    resetViewBox { s with viewBoxValues := vb }
      = { s with viewBoxValues := some (viewBoxOfString pd.originalViewBox) } := by
  have he : pd.originalViewBox.isEmpty = false := by
    cases h : pd.originalViewBox with
    | nil => exact absurd h hne
    | cons c cs => rfl
  unfold resetViewBox
  simp only [hpd, he, Bool.false_eq_true, if_false]

/-- C12: take a state `s` whose parsed data are those a successful parse stored
(a Parsed state), and any finite sequence of viewBox field edits (on `minX`,
`minY`, `width`, `height`, with any text, blank included).  A following
`resetViewBox` makes the working values equal to the values that parse resolved,
which are those read from the stored `originalViewBox`, and changes nothing
else; the edits leave the parsed data, `originalViewBox` included, unchanged; a
second reset changes nothing; and right after the parse, edits followed by a
reset give back the state the parse produced. -/
theorem resetViewBox_after_edits (host : Host) (s0 s : Session) (pd : ParsedData)
    (h : (parseSvg host s0).parsedData = some pd)
    (hs : s.parsedData = (parseSvg host s0).parsedData) (edits : List (Str × Str)) :
    (resetViewBox (applyEdits s edits)).viewBoxValues = (parseSvg host s0).viewBoxValues
    ∧ (resetViewBox (applyEdits s edits)).viewBoxValues
        = some (viewBoxOfString pd.originalViewBox)
    ∧ (applyEdits s edits).parsedData = some pd
    ∧ ((applyEdits s edits).parsedData.map ParsedData.originalViewBox)
        = some pd.originalViewBox
    ∧ resetViewBox (resetViewBox (applyEdits s edits)) = resetViewBox (applyEdits s edits)
    ∧ resetViewBox (applyEdits s edits)
        = { s with viewBoxValues := (parseSvg host s0).viewBoxValues }
    ∧ resetViewBox (applyEdits (parseSvg host s0) edits) = parseSvg host s0 := by
  obtain ⟨svg, -, -, -, -, -, hvb, hvals⟩ := parseSvg_success host s0 pd h
  have hne : pd.originalViewBox ≠ [] := by
    rw [hvb]
    exact resolveViewBox_ne_nil host.printReal svg
  have hpd : s.parsedData = some pd := hs.trans h
  have hv : (parseSvg host s0).viewBoxValues = some (viewBoxOfString pd.originalViewBox) := by
    rw [hvals, hvb]
  obtain ⟨vb, hvbe⟩ := applyEdits_eq edits s
  obtain ⟨vb', hvbe'⟩ := applyEdits_eq edits (parseSvg host s0)
  have hreset := resetViewBox_of_parsed s pd vb hpd hne
  have hreset' := resetViewBox_of_parsed (parseSvg host s0) pd vb' h hne
  have hback : ({ parseSvg host s0 with
      viewBoxValues := some (viewBoxOfString pd.originalViewBox) } : Session)
      = parseSvg host s0 := by
    rw [← hv]
  refine ⟨?_, ?_, ?_, ?_, ?_, ?_, ?_⟩
  · rw [hvbe, hreset, hv]
  · rw [hvbe, hreset]
  · rw [hvbe]
    exact hpd
  · rw [hvbe]
    show (s.parsedData.map ParsedData.originalViewBox) = _
    rw [hpd]
    rfl
  · rw [hvbe, hreset]
    exact resetViewBox_of_parsed s pd _ hpd hne
  · rw [hvbe, hreset, hv]
  · rw [hvbe', hreset', hback]

/-- C12 at the parse of `<svg width="32" height="32">…</svg>`, after which the
component name was changed, followed by edits of all four fields (one to the
blank text, one to a non-number): the edited values are 4, -3, NaN, 12.5 and
the reset gives back 0, 0, 32, 32. -/
theorem resetViewBox_after_edits_sample :
    parsedSized.viewBoxValues
      = some { minX := some (JsNum.int 0), minY := some (JsNum.int 0),
               width := some (JsNum.int 32), height := some (JsNum.int 32) }
    ∧ (applyEdits { parsedSized with componentName := "HomeIcon".toList } sampleEdits).viewBoxValues
      = some { minX := some (JsNum.int 4), minY := some (JsNum.int (-3)),
               width := some JsNum.nan, height := some (JsNum.real "12.5".toList) }
    ∧ ((resetViewBox
          (applyEdits { parsedSized with componentName := "HomeIcon".toList }
            sampleEdits)).viewBoxValues
        = parsedSized.viewBoxValues
      ∧ (resetViewBox
          (applyEdits { parsedSized with componentName := "HomeIcon".toList }
            sampleEdits)).viewBoxValues
        = some (viewBoxOfString "0 0 32 32".toList)
      ∧ (applyEdits { parsedSized with componentName := "HomeIcon".toList } sampleEdits).parsedData
        = some { elements := [ElementNode.mk "path".toList
                    [("d".toList, PropValue.str "M1 1h2v2".toList)] []]
                 originalViewBox := "0 0 32 32".toList }
      ∧ ((applyEdits { parsedSized with componentName := "HomeIcon".toList }
            sampleEdits).parsedData.map ParsedData.originalViewBox)
        = some "0 0 32 32".toList
      ∧ resetViewBox (resetViewBox
          (applyEdits { parsedSized with componentName := "HomeIcon".toList } sampleEdits))
        = resetViewBox
            (applyEdits { parsedSized with componentName := "HomeIcon".toList } sampleEdits)
      ∧ resetViewBox
          (applyEdits { parsedSized with componentName := "HomeIcon".toList } sampleEdits)
        = { ({ parsedSized with componentName := "HomeIcon".toList } : Session) with
            viewBoxValues := parsedSized.viewBoxValues }
      ∧ resetViewBox (applyEdits parsedSized sampleEdits) = parsedSized) :=
  ⟨by decide, by decide,
    resetViewBox_after_edits (hostOf svgSized)
      (sessionOf "<svg width=\"32\" height=\"32\"><path d=\"M1 1h2v2\"/></svg>".toList)
      { parsedSized with componentName := "HomeIcon".toList }
      { elements := [ElementNode.mk "path".toList [("d".toList, PropValue.str "M1 1h2v2".toList)] []]
        originalViewBox := "0 0 32 32".toList }
      rfl rfl sampleEdits⟩

end SVG2SvgIcon


